import Mathlib

/-!
Shallow embedding of the label-placement engine in `src/utils/LabelPlacer.ts`
(the core of the PearlHunt repository), together with proofs settling the
specification claims about it.

Modelling conventions:
* JavaScript `number` (IEEE-754 double) is modelled as `ℝ` (idealised real
  arithmetic).  All formulas are transcribed literally from the source.
* `rbush` is modelled as a plain list of entries; the only operations the
  engine uses are `insert` (append) and `search` (filter by the rbush
  rectangle-intersection test), and only the *set* of search results (in fact
  only its length and emptiness) is consumed, so a list is a faithful model.
* `Array.prototype.sort` with the comparator `(a, b) => b.score - a.score` is
  a stable descending sort on real scores (the comparator is consistent for
  real-valued scores); `insertDesc`/`sortDesc` below implement exactly such a
  stable insertion sort, and only the head of the sorted array is consumed.
* The only exception the engine can raise is the `TypeError` from reading
  `scored[0].score` when the candidate list is empty; fallible steps are
  therefore modelled in `Except Unit`.
* `Point.allPoints` entries are compared against the current point with
  JavaScript reference equality (`===`); reference identity is modelled by an
  explicit `isSelf` flag carried on each entry.
* JavaScript `Map` iterates keys in first-insertion order and each bucket in
  insertion order; `keysOf`/`groupsOf` reproduce that.
* `Math.round x` is `⌊x + 1/2⌋` (`jsRound`).
-/

namespace LabelPlacer

/-- `ChartSize` from `src/utils/types` as used by the engine. -/
structure ChartSize where
  width : ℝ
  height : ℝ

/-- An entry of `Point.allPoints`: only the coordinates are read by the
scorer; `isSelf` models the JavaScript reference-equality test
`otherPt === pt` used to skip the point itself. -/
structure OtherPt where
  x : ℝ
  y : ℝ
  isSelf : Bool

/-- The `Point` interface of `LabelPlacer.ts`. -/
structure Pt where
  x : ℝ
  y : ℝ
  text : String
  width : ℝ
  height : ℝ
  allPoints : Option (List OtherPt)

/-- The `Candidate` interface: proposed top-left corner, rotation, score. -/
structure Candidate where
  x : ℝ
  y : ℝ
  rotation : ℝ
  score : ℝ

/-- The `LabelBox` output shape. -/
structure LabelBox where
  x : ℝ
  y : ℝ
  width : ℝ
  height : ℝ
  rotation : ℝ
  text : String
  forPoint : Pt

/-- An axis-aligned query rectangle (the bbox argument of `rbush.search`). -/
structure Bbox where
  minX : ℝ
  minY : ℝ
  maxX : ℝ
  maxY : ℝ

/-- The `RTreeBox` entry stored in the spatial index (`__ref` back-pointer). -/
structure RTreeBox where
  minX : ℝ
  minY : ℝ
  maxX : ℝ
  maxY : ℝ
  ref : LabelBox

/-- `toRTreeBox`: a label box padded by `padding` px on every side. -/
def toRTreeBox (label : LabelBox) (padding : ℝ) : RTreeBox :=
  ⟨label.x - padding, label.y - padding,
   label.x + label.width + padding, label.y + label.height + padding, label⟩

/-- rbush's rectangle-intersection test `intersects(query, node)`:
`node.minX <= query.maxX && node.minY <= query.maxY && node.maxX >= query.minX
&& node.maxY >= query.minY` (closed rectangles). -/
def rbHit (q : Bbox) (node : RTreeBox) : Prop :=
  node.minX ≤ q.maxX ∧ node.minY ≤ q.maxY ∧ q.minX ≤ node.maxX ∧ q.minY ≤ node.maxY

noncomputable instance (q : Bbox) (node : RTreeBox) : Decidable (rbHit q node) := by
  unfold rbHit; infer_instance

/-- `rbush.search bbox`: every stored entry intersecting the query box. -/
noncomputable def searchTree (tree : List RTreeBox) (q : Bbox) : List RTreeBox :=
  tree.filter (fun node => decide (rbHit q node))

/-- `pointInRect` from the source (closed on all four sides). -/
def pointInRect (px py rx ry rw rh : ℝ) : Prop :=
  rx ≤ px ∧ px ≤ rx + rw ∧ ry ≤ py ∧ py ≤ ry + rh

noncomputable instance (px py rx ry rw rh : ℝ) : Decidable (pointInRect px py rx ry rw rh) := by
  unfold pointInRect; infer_instance

/-- The resolved option record (`Required<LabelPlacerOptions & {debug}>`). -/
structure Options where
  radius : ℝ
  rings : ℕ
  anglesPerRing : ℕ
  padding : ℝ
  overlapPenalty : ℝ
  pointPenalty : ℝ
  outOfBoundsPenalty : ℝ
  idealAngleBonus : ℝ
  debug : Bool

/-- `DEFAULT_OPTIONS` with the literal values of `LabelPlacer.ts` lines 57-67. -/
def DEFAULT_OPTIONS : Options :=
  ⟨10, 5, 32, 4, 1000, 500, 300, 0, false⟩

/-- The constructor's `options` argument: a partial record (omitted fields are
`none`), unknown extra keys being erased by the type. -/
structure OptionsInput where
  radius : Option ℝ
  rings : Option ℕ
  anglesPerRing : Option ℕ
  padding : Option ℝ
  overlapPenalty : Option ℝ
  pointPenalty : Option ℝ
  outOfBoundsPenalty : Option ℝ
  idealAngleBonus : Option ℝ
  debug : Option Bool

/-- The constructor's merge `{ ...DEFAULT_OPTIONS, ...options }`: a present
field wins, an omitted field falls back to the default. -/
def resolveOptions (i : OptionsInput) : Options :=
  ⟨i.radius.getD DEFAULT_OPTIONS.radius,
   i.rings.getD DEFAULT_OPTIONS.rings,
   i.anglesPerRing.getD DEFAULT_OPTIONS.anglesPerRing,
   i.padding.getD DEFAULT_OPTIONS.padding,
   i.overlapPenalty.getD DEFAULT_OPTIONS.overlapPenalty,
   i.pointPenalty.getD DEFAULT_OPTIONS.pointPenalty,
   i.outOfBoundsPenalty.getD DEFAULT_OPTIONS.outOfBoundsPenalty,
   i.idealAngleBonus.getD DEFAULT_OPTIONS.idealAngleBonus,
   i.debug.getD DEFAULT_OPTIONS.debug⟩

/-- `pointRadius = 6` (assumed default point size, hard-coded). -/
def pointRadius : ℝ := 6

/-- `boundaryBuffer = 1` (hard-coded 1 px boundary). -/
def boundaryBuffer : ℝ := 1

/-- `exclusionRadius = pointRadius + boundaryBuffer = 7`. -/
def exclusionRadius : ℝ := pointRadius + boundaryBuffer

/-- Distance from the center of a `pt.width × pt.height` box whose top-left
corner is `(cx, cy)` to the anchor `(pt.x, pt.y)` — the `distanceToPoint` /
`distance` expression of the source. -/
noncomputable def labelCenterDist (pt : Pt) (cx cy : ℝ) : ℝ :=
  Real.sqrt ((cx + pt.width / 2 - pt.x) ^ 2 + (cy + pt.height / 2 - pt.y) ^ 2)

/-- The top-left corner produced by the primary ring for angle index `i`
(lines 420-464): edge-based offset selection by `|cos| > |sin|`, then the
boundary clamp into `[1, width-1-w] × [1, height-1-h]`. -/
noncomputable def primaryCandidate (cs : ChartSize) (pt : Pt) (i : ℕ) : Candidate :=
  let angle : ℝ := (i : ℝ) * (2 * Real.pi / 64)
  let co := Real.cos angle
  let si := Real.sin angle
  let dx : ℝ :=
    if |si| < |co| then
      (if 0 < co then exclusionRadius else -exclusionRadius - pt.width)
    else co * exclusionRadius - pt.width / 2
  let dy : ℝ :=
    if |si| < |co| then si * exclusionRadius - pt.height / 2
    else (if 0 < si then exclusionRadius else -exclusionRadius - pt.height)
  ⟨max 1 (min (pt.x + dx) (cs.width - 1 - pt.width)),
   max 1 (min (pt.y + dy) (cs.height - 1 - pt.height)), 0, 0⟩

/-- The hard distance floor applied to primary and expanding-ring candidates
(`if (distanceToPoint >= exclusionRadius) candidates.push(...)`). -/
noncomputable def distGuard (pt : Pt) (cand : Candidate) : Option Candidate :=
  if exclusionRadius ≤ labelCenterDist pt cand.x cand.y then some cand else none

/-- The top-left corner produced by expanding ring `r` at angle index `i`
(lines 483-514). -/
noncomputable def expandCandidate (cs : ChartSize) (opts : Options) (pt : Pt)
    (r i : ℕ) : Candidate :=
  let rScale : ℝ := 1 + (r : ℝ) * 0.5
  let angles : ℕ := max 8 (opts.anglesPerRing / (r + 1))
  let angle : ℝ := ((i : ℝ) / (angles : ℝ)) * Real.pi * 2
  let dx := Real.cos angle * (exclusionRadius * rScale)
  let dy := Real.sin angle * (exclusionRadius * rScale)
  ⟨max 1 (min (pt.x + dx) (cs.width - 1 - pt.width)),
   max 1 (min (pt.y + dy) (cs.height - 1 - pt.height)), 0, 0⟩

/-- The fallback-ring candidate (lines 518-534): radius `7 + 5·ring`,
unclamped, unfiltered. -/
noncomputable def fallbackItem (opts : Options) (pt : Pt) (ring i : ℕ) : Candidate :=
  let r : ℝ := exclusionRadius + (ring : ℝ) * 5
  let angle : ℝ := (i : ℝ) * (2 * Real.pi / (opts.anglesPerRing : ℝ))
  ⟨pt.x + r * Real.cos angle - pt.width / 2,
   pt.y + r * Real.sin angle - pt.height / 2, 0, 0⟩

/-- The half-step-ring candidate (lines 537-555): radius
`max 7 (radius·ring)`, angles phase-shifted by half a step, unclamped,
unfiltered. -/
noncomputable def halfstepItem (opts : Options) (pt : Pt) (ring i : ℕ) : Candidate :=
  let r : ℝ := max exclusionRadius (opts.radius * (ring : ℝ))
  let angleStep : ℝ := 2 * Real.pi / (opts.anglesPerRing : ℝ)
  let angle : ℝ := (i : ℝ) * angleStep + angleStep / 2
  ⟨pt.x + r * Real.cos angle - pt.width / 2,
   pt.y + r * Real.sin angle - pt.height / 2, 0, 0⟩

/-- `generateCandidates` (lines 388-558): the four ring families concatenated
in source order — 64-angle primary ring (clamped, distance-filtered),
`rings - 1` expanding rings (clamped, distance-filtered), `rings` fallback
rings and `rings` half-step rings (both unclamped and unfiltered). -/
noncomputable def generateCandidates (cs : ChartSize) (opts : Options) (pt : Pt) :
    List Candidate :=
  (List.range 64).filterMap (fun i => distGuard pt (primaryCandidate cs pt i))
    ++ (List.range' 1 (opts.rings - 1)).flatMap (fun r =>
        (List.range (max 8 (opts.anglesPerRing / (r + 1)))).filterMap (fun i =>
          distGuard pt (expandCandidate cs opts pt r i)))
    ++ (List.range' 1 opts.rings).flatMap (fun ring =>
        (List.range opts.anglesPerRing).map (fallbackItem opts pt ring))
    ++ (List.range' 1 opts.rings).flatMap (fun ring =>
        (List.range opts.anglesPerRing).map (halfstepItem opts pt ring))

/-- The 2 px-padded query rectangle used for the overlap search. -/
def queryBox (pt : Pt) (cx cy : ℝ) : Bbox :=
  ⟨cx - 2, cy - 2, cx + pt.width + 2, cy + pt.height + 2⟩

/-- Scoring term 1: `-100000 × collisions.length` when the padded candidate
rectangle hits any stored entry. -/
noncomputable def overlapTerm (tree : List RTreeBox) (pt : Pt) (cx cy : ℝ) : ℝ :=
  let n := (searchTree tree (queryBox pt cx cy)).length
  if 0 < n then -(100000 * (n : ℝ)) else 0

/-- Scoring term 2: `pointPenalty` per non-self `allPoints` entry covered by
the candidate rectangle, subtracted only when positive. -/
noncomputable def pointPenaltyTerm (opts : Options) (pt : Pt) (cx cy : ℝ) : ℝ :=
  match pt.allPoints with
  | none => 0
  | some l =>
    let covered := l.filter (fun q =>
      !q.isSelf && decide (pointInRect q.x q.y cx cy pt.width pt.height))
    let pen : ℝ := (covered.length : ℝ) * opts.pointPenalty
    if 0 < pen then -pen else 0

/-- Scoring term 2.5: quadratic border-proximity penalty inside 10 px. -/
noncomputable def borderPenaltyTerm (cs : ChartSize) (pt : Pt) (cx cy : ℝ) : ℝ :=
  let labelCenterX := cx + pt.width / 2
  let labelCenterY := cy + pt.height / 2
  let minBorderDistance :=
    min (min (min labelCenterX (cs.width - labelCenterX)) labelCenterY)
      (cs.height - labelCenterY)
  if minBorderDistance < 10 then -(((10 - minBorderDistance) / 10) ^ 2 * 100) else 0

/-- Scoring term 2.6: up to +10 for being near the chart center. -/
noncomputable def centerBonusTerm (cs : ChartSize) (pt : Pt) (cx cy : ℝ) : ℝ :=
  let labelCenterX := cx + pt.width / 2
  let labelCenterY := cy + pt.height / 2
  let dx := (labelCenterX - cs.width / 2) / (cs.width / 2)
  let dy := (labelCenterY - cs.height / 2) / (cs.height / 2)
  let distanceFromCenter := Real.sqrt (dx ^ 2 + dy ^ 2) / Real.sqrt 2
  (1 - distanceFromCenter) * 10

/-- `isOutOfBounds` (lines 376-385): any part of the box outside the 1 px
inner margin. -/
def isOutOfBounds (cs : ChartSize) (x0 y0 w0 h0 : ℝ) : Prop :=
  x0 < 1 ∨ y0 < 1 ∨ cs.width - 1 < x0 + w0 ∨ cs.height - 1 < y0 + h0

noncomputable instance (cs : ChartSize) (x0 y0 w0 h0 : ℝ) :
    Decidable (isOutOfBounds cs x0 y0 w0 h0) := by
  unfold isOutOfBounds; infer_instance

/-- Scoring term 3: flat `outOfBoundsPenalty`. -/
noncomputable def outOfBoundsTerm (cs : ChartSize) (opts : Options) (pt : Pt)
    (cx cy : ℝ) : ℝ :=
  if isOutOfBounds cs cx cy pt.width pt.height then -opts.outOfBoundsPenalty else 0

/-- Scoring term 4: 10 points of penalty per pixel of center-to-anchor
distance. -/
noncomputable def distancePenaltyTerm (pt : Pt) (cx cy : ℝ) : ℝ :=
  -(labelCenterDist pt cx cy * 10)

/-- The first-pass score of a candidate (lines 150-258). -/
noncomputable def baseScore (cs : ChartSize) (opts : Options) (tree : List RTreeBox)
    (pt : Pt) (cx cy : ℝ) : ℝ :=
  overlapTerm tree pt cx cy + pointPenaltyTerm opts pt cx cy
    + borderPenaltyTerm cs pt cx cy + centerBonusTerm cs pt cx cy
    + outOfBoundsTerm cs opts pt cx cy + distancePenaltyTerm pt cx cy

/-- Second-pass check (a): some corner of the label box within
`exclusionRadius` of the anchor. -/
noncomputable def violatesBoundary (pt : Pt) (cx cy : ℝ) : Prop :=
  Real.sqrt ((cx - pt.x) ^ 2 + (cy - pt.y) ^ 2) < exclusionRadius ∨
  Real.sqrt ((cx + pt.width - pt.x) ^ 2 + (cy - pt.y) ^ 2) < exclusionRadius ∨
  Real.sqrt ((cx - pt.x) ^ 2 + (cy + pt.height - pt.y) ^ 2) < exclusionRadius ∨
  Real.sqrt ((cx + pt.width - pt.x) ^ 2 + (cy + pt.height - pt.y) ^ 2) < exclusionRadius

noncomputable instance (pt : Pt) (cx cy : ℝ) : Decidable (violatesBoundary pt cx cy) := by
  unfold violatesBoundary; infer_instance

/-- Second-pass check (b): strict overlap of the label box with the
`[x±7] × [y±7]` exclusion square of its own anchor. -/
def exclusionOverlap (pt : Pt) (cx cy : ℝ) : Prop :=
  (cx < pt.x + exclusionRadius ∧ pt.x - exclusionRadius < cx + pt.width) ∧
  (cy < pt.y + exclusionRadius ∧ pt.y - exclusionRadius < cy + pt.height)

noncomputable instance (pt : Pt) (cx cy : ℝ) : Decidable (exclusionOverlap pt cx cy) := by
  unfold exclusionOverlap; infer_instance

/-- The disqualifying condition of the second scoring pass (lines 261-316). -/
noncomputable def boundaryViolation (pt : Pt) (cx cy : ℝ) : Prop :=
  exclusionOverlap pt cx cy ∨ violatesBoundary pt cx cy

noncomputable instance (pt : Pt) (cx cy : ℝ) : Decidable (boundaryViolation pt cx cy) := by
  unfold boundaryViolation; infer_instance

/-- The final score of a candidate: first-pass score plus the `-100000`
boundary-violation penalty of the second pass. -/
noncomputable def totalScore (cs : ChartSize) (opts : Options) (tree : List RTreeBox)
    (pt : Pt) (cx cy : ℝ) : ℝ :=
  baseScore cs opts tree pt cx cy + (if boundaryViolation pt cx cy then -100000 else 0)

/-- Stable descending insertion: `c` goes in front of the first element whose
score is `≤ c.score` (so, before later equal-scored elements). -/
noncomputable def insertDesc (c : Candidate) : List Candidate → List Candidate
  | [] => [c]
  | b :: l => if b.score ≤ c.score then c :: b :: l else b :: insertDesc c l

/-- Stable descending sort by score — the model of
`scored.sort((a, b) => b.score - a.score)`. -/
noncomputable def sortDesc : List Candidate → List Candidate
  | [] => []
  | c :: t => insertDesc c (sortDesc t)

/-- The `LabelBox` built from the chosen candidate (lines 364-372). -/
def mkLabel (pt : Pt) (c : Candidate) : LabelBox :=
  ⟨c.x, c.y, pt.width, pt.height, c.rotation, pt.text, pt⟩

/-- All candidates of a point with their final scores filled in. -/
noncomputable def scoredCandidates (cs : ChartSize) (opts : Options)
    (tree : List RTreeBox) (pt : Pt) : List Candidate :=
  (generateCandidates cs opts pt).map (fun c =>
    ⟨c.x, c.y, c.rotation, totalScore cs opts tree pt c.x c.y⟩)

/-- `placeLabelForPoint` (lines 145-373).  `Except.error ()` models the
`TypeError` raised by `scored[0].score` when no candidate exists;
`Except.ok none` is the dropped-label (`return null`) branch. -/
noncomputable def placeLabelForPoint (cs : ChartSize) (opts : Options)
    (tree : List RTreeBox) (pt : Pt) : Except Unit (Option LabelBox) :=
  match (sortDesc (scoredCandidates cs opts tree pt)).head? with
  | none => Except.error ()
  | some chosen =>
    if chosen.score ≤ -100000 then Except.ok none
    else Except.ok (some (mkLabel pt chosen))

/-- The filter `pt.text && pt.text.trim() !== ''`: the string is truthy
(non-empty) and non-blank after trimming.  Trimming is modelled on the
character list (`String.prototype.trim` strips leading and trailing
whitespace; only emptiness of the trimmed string is consumed, so the final
reversal is dropped). -/
def textTruthy (s : String) : Bool :=
  !s.data.isEmpty &&
    !((s.data.dropWhile Char.isWhitespace).reverse.dropWhile Char.isWhitespace).isEmpty

/-- JavaScript `Math.round`. -/
noncomputable def jsRound (x : ℝ) : ℤ := ⌊x + 1 / 2⌋

/-- The grouping key `${Math.round(pt.x)},${Math.round(pt.y)}` (the string
format is injective on the rounded pair). -/
noncomputable def keyOf (p : Pt) : ℤ × ℤ := (jsRound p.x, jsRound p.y)

/-- Key accumulation in first-insertion order (JavaScript `Map` semantics). -/
def insertKey (l : List (ℤ × ℤ)) (k : ℤ × ℤ) : List (ℤ × ℤ) :=
  if k ∈ l then l else l ++ [k]

/-- The distinct keys of a point list, in first-occurrence order. -/
noncomputable def keysOf (l : List Pt) : List (ℤ × ℤ) :=
  l.foldl (fun acc p => insertKey acc (keyOf p)) []

/-- The `y` of a group's first member (`a[0].y`); groups are never empty. -/
def firstY : List Pt → ℝ
  | [] => 0
  | p :: _ => p.y

/-- Stable ascending insertion of a group by first-member `y`. -/
noncomputable def insertGroup (g : List Pt) : List (List Pt) → List (List Pt)
  | [] => [g]
  | h :: t => if firstY g ≤ firstY h then g :: h :: t else h :: insertGroup g t

/-- Stable ascending sort of the groups — the model of
`.sort(([, a], [, b]) => a[0].y - b[0].y)`. -/
noncomputable def sortGroups : List (List Pt) → List (List Pt)
  | [] => []
  | g :: t => insertGroup g (sortGroups t)

/-- The sorted anchor groups of a placement pass (lines 98-113): filter to
truthy texts, bucket by rounded key in first-occurrence order, sort stably by
first-member `y`. -/
noncomputable def groupsOf (points : List Pt) : List (List Pt) :=
  let pws := points.filter (fun p => textTruthy p.text)
  sortGroups ((keysOf pws).map (fun k => pws.filter (fun p => decide (keyOf p = k))))

/-- `Array.prototype.join(', ')`. -/
def joinTexts : List String → String
  | [] => ""
  | [s] => s
  | s :: t => s ++ ", " ++ joinTexts t

/-- `Math.max(...)` over a non-empty argument list. -/
def maxOf : List ℝ → ℝ
  | [] => 0
  | x :: t => t.foldl (fun a b => max a b) x

/-- The synthetic point of a group: the group's single member, or the first
member with comma-joined text and per-axis maximal box (lines 117-126). -/
noncomputable def combinePoint (g : List Pt) : Pt :=
  match g with
  | [] => ⟨0, 0, "", 0, 0, none⟩
  | p :: rest =>
    if rest.isEmpty then p
    else ⟨p.x, p.y, joinTexts ((p :: rest).map Pt.text),
          maxOf ((p :: rest).map Pt.width), maxOf ((p :: rest).map Pt.height),
          p.allPoints⟩

/-- The engine state threaded through one pass: the spatial index and the
labels placed so far. -/
structure PState where
  tree : List RTreeBox
  placed : List LabelBox

/-- One loop iteration of `placeAll` (lines 116-139): place the group's
(possibly combined) point; on success insert the 2 px-padded box and append
the label, on a dropped label leave the state unchanged. -/
noncomputable def placeGroup (cs : ChartSize) (opts : Options) (st : PState)
    (g : List Pt) : Except Unit PState :=
  match g with
  | [] => Except.error ()
  | _ :: _ =>
    match placeLabelForPoint cs opts st.tree (combinePoint g) with
    | Except.error e => Except.error e
    | Except.ok none => Except.ok st
    | Except.ok (some label) =>
      Except.ok ⟨st.tree ++ [toRTreeBox label 2], st.placed ++ [label]⟩

/-- The `placeAll` loop over the sorted groups. -/
noncomputable def runGroups (cs : ChartSize) (opts : Options) :
    PState → List (List Pt) → Except Unit PState
  | st, [] => Except.ok st
  | st, g :: gs =>
    match placeGroup cs opts st g with
    | Except.error e => Except.error e
    | Except.ok st2 => runGroups cs opts st2 gs

/-- `placeAll` (lines 93-142): one full placement pass from a fresh state. -/
noncomputable def placeAll (cs : ChartSize) (opts : Options) (points : List Pt) :
    Except Unit (List LabelBox) :=
  match runGroups cs opts ⟨[], []⟩ (groupsOf points) with
  | Except.error e => Except.error e
  | Except.ok st => Except.ok st.placed

/-- One merge step of the best-candidate computation: the accumulator wins a
tie (first occurrence wins). -/
noncomputable def combineBest (c : Candidate) : Option Candidate → Candidate
  | none => c
  | some b => if b.score ≤ c.score then c else b

/-- The first maximal-score element of a candidate list. -/
noncomputable def bestOf : List Candidate → Option Candidate
  | [] => none
  | c :: t => some (combineBest c (bestOf t))

/-- Closed intersection of the 2 px-padded rectangles of two label boxes —
exactly the rbush test between one label's padded query box and the other's
stored padded entry. -/
def paddedIntersects (a b : LabelBox) : Prop :=
  b.x - 2 ≤ a.x + a.width + 2 ∧ b.y - 2 ≤ a.y + a.height + 2 ∧
  a.x - 2 ≤ b.x + b.width + 2 ∧ a.y - 2 ≤ b.y + b.height + 2

/-- The state invariant of one pass: the index holds exactly the padded boxes
of the placed labels, and the placed labels are pairwise non-overlapping
after padding. -/
def stInv (st : PState) : Prop :=
  st.tree = st.placed.map (fun L => toRTreeBox L 2) ∧
  List.Pairwise (fun a b => ¬ paddedIntersects a b) st.placed

/-- The (open-disk) intersection test between a label's rectangle and the
disk of radius `r` around `(ax, ay)`. -/
def rectMeetsDisk (L : LabelBox) (ax ay r : ℝ) : Prop :=
  ∃ px py, L.x ≤ px ∧ px ≤ L.x + L.width ∧ L.y ≤ py ∧ py ≤ L.y + L.height ∧
    Real.sqrt ((px - ax) ^ 2 + (py - ay) ^ 2) < r

/-- The wholly-omitted options record. -/
def noOptions : OptionsInput :=
  ⟨none, none, none, none, none, none, none, none, none⟩

/-- The options of the concrete runs: defaults with `rings := 1` and
`anglesPerRing := 1`. -/
def runOpts : Options := ⟨10, 1, 1, 4, 1000, 500, 300, 0, false⟩

/-- Defaults with `rings := 0` (legal input; exercises the empty candidate
list). -/
def opts0 : Options := ⟨10, 0, 1, 4, 1000, 500, 300, 0, false⟩

/-- The 11×11 chart of the concrete runs. -/
def csRun : ChartSize := ⟨11, 11⟩

/-- Anchor at (6,6) with a 10×10 label box and the given text. -/
def ptA (s : String) : Pt := ⟨6, 6, s, 10, 10, none⟩

/-- Anchor at (-13,6), 10×10 box. -/
def ptB : Pt := ⟨-13, 6, "B", 10, 10, none⟩

/-- Anchor at (6.4,6), 10×10 box — rounds into the same bucket as `ptA`. -/
def ptC : Pt := ⟨6.4, 6, "B", 10, 10, none⟩

/-- Anchor at (6,6) with an oversized 30×10 box. -/
def ptP1 : Pt := ⟨6, 6, "A", 30, 10, none⟩

/-- Anchor at (6.4,6) with a 20×9 box — same bucket as `ptP1`. -/
def ptP2 : Pt := ⟨6.4, 6, "B", 20, 9, none⟩

/-- The label the engine places for `ptA`. -/
def lblA (s : String) : LabelBox := ⟨13, 1, 10, 10, 0, s, ptA s⟩

/-- The label the engine places for `ptB` (after `lblA`). -/
def lblB : LabelBox := ⟨-6, 1, 10, 10, 0, "B", ptB⟩

/-- The synthetic point combining `ptP1` and `ptP2`. -/
def ptM : Pt := ⟨6, 6, "A, B", 30, 10, none⟩

/-! ### Square-root evaluation helpers -/

lemma sqrt_eval (a b : ℝ) (hb : 0 ≤ b) (h : b ^ 2 = a) : Real.sqrt a = b := by
  rw [← h, Real.sqrt_sq hb]

lemma le_sqrt_of_sq_le (a b : ℝ) (hb : 0 ≤ b) (h : b ^ 2 ≤ a) : b ≤ Real.sqrt a := by
  calc b = Real.sqrt (b ^ 2) := (Real.sqrt_sq hb).symm
    _ ≤ Real.sqrt a := Real.sqrt_le_sqrt h

lemma sqrt_le_of_le_sq (a b : ℝ) (hb : 0 ≤ b) (h : a ≤ b ^ 2) : Real.sqrt a ≤ b := by
  calc Real.sqrt a ≤ Real.sqrt (b ^ 2) := Real.sqrt_le_sqrt h
    _ = b := Real.sqrt_sq hb

/-! ### The chosen candidate: head of the stable descending sort -/

lemma head?_insertDesc (c : Candidate) (l : List Candidate) :
    (insertDesc c l).head? = some (combineBest c l.head?) := by
  cases l with
  | nil => rfl
  | cons b t =>
    by_cases h : b.score ≤ c.score
    · simp [insertDesc, combineBest, h]
    · simp [insertDesc, combineBest, h]

lemma sortDesc_head? (l : List Candidate) : (sortDesc l).head? = bestOf l := by
  induction l with
  | nil => rfl
  | cons c t ih =>
    rw [sortDesc, head?_insertDesc, ih]
    rfl

lemma bestOf_none_iff (l : List Candidate) : bestOf l = none ↔ l = [] := by
  cases l <;> simp [bestOf]

lemma combineBest_none (c : Candidate) : combineBest c none = c := rfl

lemma combineBest_some (c m : Candidate) :
    combineBest c (some m) = if m.score ≤ c.score then c else m := rfl

lemma bestOf_mem {l : List Candidate} {b : Candidate} (h : bestOf l = some b) : b ∈ l := by
  induction l generalizing b with
  | nil => simp [bestOf] at h
  | cons c t ih =>
    rw [bestOf] at h
    injection h with h
    cases hb : bestOf t with
    | none =>
      rw [hb, combineBest_none] at h
      subst h
      exact List.mem_cons_self _ _
    | some m =>
      rw [hb, combineBest_some] at h
      by_cases hle : m.score ≤ c.score
      · rw [if_pos hle] at h
        subst h
        exact List.mem_cons_self _ _
      · rw [if_neg hle] at h
        subst h
        exact List.mem_cons_of_mem c (ih hb)

lemma bestOf_max {l : List Candidate} {b : Candidate} (h : bestOf l = some b) :
    ∀ x ∈ l, x.score ≤ b.score := by
  induction l generalizing b with
  | nil => simp [bestOf] at h
  | cons c t ih =>
    rw [bestOf] at h
    injection h with h
    intro x hx
    cases hb : bestOf t with
    | none =>
      have ht : t = [] := (bestOf_none_iff t).mp hb
      subst ht
      rw [hb, combineBest_none] at h
      subst h
      have hxc : x = c := by simpa using hx
      rw [hxc]
    | some m =>
      rw [hb, combineBest_some] at h
      have hmx : ∀ y ∈ t, y.score ≤ m.score := ih hb
      by_cases hle : m.score ≤ c.score
      · rw [if_pos hle] at h
        subst h
        rcases List.mem_cons.mp hx with rfl | hxt
        · exact le_refl _
        · exact (hmx x hxt).trans hle
      · rw [if_neg hle] at h
        subst h
        rcases List.mem_cons.mp hx with rfl | hxt
        · exact le_of_lt (not_le.mp hle)
        · exact hmx x hxt

lemma bestOf_first {l : List Candidate} {b : Candidate} (h : bestOf l = some b) :
    ∃ l₁ l₂, l = l₁ ++ b :: l₂ ∧ ∀ x ∈ l₁, x.score < b.score := by
  induction l generalizing b with
  | nil => simp [bestOf] at h
  | cons c t ih =>
    rw [bestOf] at h
    injection h with h
    cases hb : bestOf t with
    | none =>
      rw [hb, combineBest_none] at h
      subst h
      exact ⟨[], t, by simp, by simp⟩
    | some m =>
      rw [hb, combineBest_some] at h
      by_cases hle : m.score ≤ c.score
      · rw [if_pos hle] at h
        subst h
        exact ⟨[], t, by simp, by simp⟩
      · rw [if_neg hle] at h
        subst h
        obtain ⟨l₁, l₂, ht, hlt⟩ := ih hb
        refine ⟨c :: l₁, l₂, by simp [ht], ?_⟩
        intro x hx
        rcases List.mem_cons.mp hx with rfl | hxt
        · exact not_le.mp hle
        · exact hlt x hxt

lemma bestOf_replicate_append (n : ℕ) (p f : Candidate) (r : List Candidate)
    (hr : bestOf r = some f) (hlt : p.score < f.score) :
    bestOf (List.replicate n p ++ r) = some f := by
  induction n with
  | zero => simpa using hr
  | succ k ih =>
    rw [List.replicate_succ, List.cons_append, bestOf, ih, combineBest,
      if_neg (not_le.mpr hlt)]

/-! ### Sign and size bounds for the scoring terms -/

lemma overlapTerm_nonpos (tree : List RTreeBox) (pt : Pt) (cx cy : ℝ) :
    overlapTerm tree pt cx cy ≤ 0 := by
  unfold overlapTerm
  dsimp only
  split
  · rw [neg_nonpos]
    positivity
  · exact le_refl 0

lemma overlapTerm_le_of_hit (tree : List RTreeBox) (pt : Pt) (cx cy : ℝ)
    (h : 0 < (searchTree tree (queryBox pt cx cy)).length) :
    overlapTerm tree pt cx cy ≤ -100000 := by
  unfold overlapTerm
  dsimp only
  rw [if_pos h]
  have h1 : (1 : ℝ) ≤ ((searchTree tree (queryBox pt cx cy)).length : ℝ) := by
    exact_mod_cast h
  nlinarith

lemma pointPenaltyTerm_nonpos (opts : Options) (pt : Pt) (cx cy : ℝ) :
    pointPenaltyTerm opts pt cx cy ≤ 0 := by
  unfold pointPenaltyTerm
  cases pt.allPoints with
  | none => exact le_refl 0
  | some l =>
    dsimp only
    split
    next hpos => linarith
    next hpos => exact le_refl 0

lemma borderPenaltyTerm_nonpos (cs : ChartSize) (pt : Pt) (cx cy : ℝ) :
    borderPenaltyTerm cs pt cx cy ≤ 0 := by
  unfold borderPenaltyTerm
  dsimp only
  split
  · rw [neg_nonpos]
    positivity
  · exact le_refl 0

lemma centerBonusTerm_le (cs : ChartSize) (pt : Pt) (cx cy : ℝ) :
    centerBonusTerm cs pt cx cy ≤ 10 := by
  unfold centerBonusTerm
  dsimp only
  have hd : (0:ℝ) ≤ Real.sqrt (((cx + pt.width / 2 - cs.width / 2) / (cs.width / 2)) ^ 2
      + ((cy + pt.height / 2 - cs.height / 2) / (cs.height / 2)) ^ 2) / Real.sqrt 2 :=
    div_nonneg (Real.sqrt_nonneg _) (Real.sqrt_nonneg _)
  nlinarith

lemma outOfBoundsTerm_nonpos (cs : ChartSize) (opts : Options) (pt : Pt) (cx cy : ℝ)
    (h : 0 ≤ opts.outOfBoundsPenalty) : outOfBoundsTerm cs opts pt cx cy ≤ 0 := by
  unfold outOfBoundsTerm
  split
  · linarith
  · exact le_refl 0

lemma distancePenaltyTerm_le (pt : Pt) (cx cy : ℝ)
    (h : exclusionRadius ≤ labelCenterDist pt cx cy) :
    distancePenaltyTerm pt cx cy ≤ -70 := by
  unfold distancePenaltyTerm
  unfold exclusionRadius pointRadius boundaryBuffer at h
  nlinarith

lemma baseScore_le (cs : ChartSize) (opts : Options) (tree : List RTreeBox) (pt : Pt)
    (cx cy : ℝ) (hoob : 0 ≤ opts.outOfBoundsPenalty)
    (hd : exclusionRadius ≤ labelCenterDist pt cx cy) :
    baseScore cs opts tree pt cx cy ≤ -60 := by
  unfold baseScore
  have h1 := overlapTerm_nonpos tree pt cx cy
  have h2 := pointPenaltyTerm_nonpos opts pt cx cy
  have h3 := borderPenaltyTerm_nonpos cs pt cx cy
  have h4 := centerBonusTerm_le cs pt cx cy
  have h5 := outOfBoundsTerm_nonpos cs opts pt cx cy hoob
  have h6 := distancePenaltyTerm_le pt cx cy hd
  linarith

lemma totalScore_le_of_violation (cs : ChartSize) (opts : Options) (tree : List RTreeBox)
    (pt : Pt) (cx cy : ℝ) (hoob : 0 ≤ opts.outOfBoundsPenalty)
    (hd : exclusionRadius ≤ labelCenterDist pt cx cy)
    (hv : boundaryViolation pt cx cy) :
    totalScore cs opts tree pt cx cy ≤ -100060 := by
  unfold totalScore
  rw [if_pos hv]
  have := baseScore_le cs opts tree pt cx cy hoob hd
  linarith

lemma totalScore_le_of_collision (cs : ChartSize) (opts : Options) (tree : List RTreeBox)
    (pt : Pt) (cx cy : ℝ) (hoob : 0 ≤ opts.outOfBoundsPenalty)
    (hd : exclusionRadius ≤ labelCenterDist pt cx cy)
    (hc : 0 < (searchTree tree (queryBox pt cx cy)).length) :
    totalScore cs opts tree pt cx cy ≤ -100060 := by
  unfold totalScore baseScore
  have h1 := overlapTerm_le_of_hit tree pt cx cy hc
  have h2 := pointPenaltyTerm_nonpos opts pt cx cy
  have h3 := borderPenaltyTerm_nonpos cs pt cx cy
  have h4 := centerBonusTerm_le cs pt cx cy
  have h5 := outOfBoundsTerm_nonpos cs opts pt cx cy hoob
  have h6 := distancePenaltyTerm_le pt cx cy hd
  have h7 : (if boundaryViolation pt cx cy then (-100000 : ℝ) else 0) ≤ 0 := by
    split
    · linarith
    · exact le_refl 0
  linarith

/-! ### Every generated candidate keeps its center at least `exclusionRadius`
from the anchor -/

lemma exclusionRadius_eq : exclusionRadius = 7 := by
  unfold exclusionRadius pointRadius boundaryBuffer
  norm_num

lemma labelCenterDist_ring (pt : Pt) (r θ : ℝ) (hr : 0 ≤ r) :
    labelCenterDist pt (pt.x + r * Real.cos θ - pt.width / 2)
      (pt.y + r * Real.sin θ - pt.height / 2) = r := by
  unfold labelCenterDist
  have harg : (pt.x + r * Real.cos θ - pt.width / 2 + pt.width / 2 - pt.x) ^ 2
      + (pt.y + r * Real.sin θ - pt.height / 2 + pt.height / 2 - pt.y) ^ 2 = r ^ 2 := by
    have h1 : Real.cos θ ^ 2 + Real.sin θ ^ 2 = 1 := Real.cos_sq_add_sin_sq θ
    linear_combination (r ^ 2) * h1
  rw [harg, Real.sqrt_sq hr]

lemma distGuard_some {pt : Pt} {cand c : Candidate} (h : distGuard pt cand = some c) :
    c = cand ∧ exclusionRadius ≤ labelCenterDist pt c.x c.y := by
  unfold distGuard at h
  split at h
  case isTrue hcond =>
    injection h with h
    subst h
    exact ⟨rfl, hcond⟩
  case isFalse => exact absurd h (by simp)

lemma generateCandidates_dist (cs : ChartSize) (opts : Options) (pt : Pt) :
    ∀ c ∈ generateCandidates cs opts pt,
      exclusionRadius ≤ labelCenterDist pt c.x c.y := by
  intro c hc
  have h70 : (0 : ℝ) ≤ exclusionRadius := by rw [exclusionRadius_eq]; norm_num
  unfold generateCandidates at hc
  simp only [List.mem_append] at hc
  rcases hc with ((hA | hB) | hC) | hD
  · obtain ⟨i, _, hf⟩ := List.mem_filterMap.mp hA
    exact (distGuard_some hf).2
  · obtain ⟨r, _, hr⟩ := List.mem_flatMap.mp hB
    obtain ⟨i, _, hf⟩ := List.mem_filterMap.mp hr
    exact (distGuard_some hf).2
  · obtain ⟨ring, _, hr⟩ := List.mem_flatMap.mp hC
    obtain ⟨i, _, hf⟩ := List.mem_map.mp hr
    subst hf
    unfold fallbackItem
    dsimp only
    rw [labelCenterDist_ring pt _ _ (by rw [exclusionRadius_eq]; positivity)]
    exact le_add_of_nonneg_right (by positivity)
  · obtain ⟨ring, _, hr⟩ := List.mem_flatMap.mp hD
    obtain ⟨i, _, hf⟩ := List.mem_map.mp hr
    subst hf
    unfold halfstepItem
    dsimp only
    have hmax : (0 : ℝ) ≤ max exclusionRadius (opts.radius * (ring : ℝ)) :=
      le_trans h70 (le_max_left _ _)
    rw [labelCenterDist_ring pt _ _ hmax]
    exact le_max_left _ _

/-! ### Soundness of a committed placement -/

lemma placeLabelForPoint_ok_some {cs : ChartSize} {opts : Options}
    {tree : List RTreeBox} {pt : Pt} {L : LabelBox}
    (h : placeLabelForPoint cs opts tree pt = Except.ok (some L)) :
    ∃ c ∈ generateCandidates cs opts pt,
      L = mkLabel pt ⟨c.x, c.y, c.rotation, totalScore cs opts tree pt c.x c.y⟩ ∧
      -100000 < totalScore cs opts tree pt c.x c.y := by
  unfold placeLabelForPoint at h
  rw [sortDesc_head?] at h
  cases hb : bestOf (scoredCandidates cs opts tree pt) with
  | none => rw [hb] at h; exact absurd h (by simp)
  | some chosen =>
    rw [hb] at h
    dsimp only at h
    by_cases hle : chosen.score ≤ -100000
    · rw [if_pos hle] at h
      exact absurd h (by simp)
    · rw [if_neg hle] at h
      have hL : mkLabel pt chosen = L := by
        injection h with h
        injection h with h
      have hmem := bestOf_mem hb
      unfold scoredCandidates at hmem
      obtain ⟨c, hcg, hceq⟩ := List.mem_map.mp hmem
      have hscore : chosen.score = totalScore cs opts tree pt c.x c.y := by
        rw [← hceq]
      refine ⟨c, hcg, ?_, ?_⟩
      · rw [← hL, ← hceq]
      · rw [hscore] at hle
        linarith [not_le.mp hle]

lemma placed_label_shape {cs : ChartSize} {opts : Options}
    {tree : List RTreeBox} {pt : Pt} {L : LabelBox}
    (h : placeLabelForPoint cs opts tree pt = Except.ok (some L)) :
    L.forPoint = pt ∧ L.width = pt.width ∧ L.height = pt.height ∧ L.text = pt.text := by
  obtain ⟨c, _, hL, _⟩ := placeLabelForPoint_ok_some h
  rw [hL]
  exact ⟨rfl, rfl, rfl, rfl⟩

lemma placed_no_collision {cs : ChartSize} {opts : Options}
    {tree : List RTreeBox} {pt : Pt} {L : LabelBox}
    (hoob : 0 ≤ opts.outOfBoundsPenalty)
    (h : placeLabelForPoint cs opts tree pt = Except.ok (some L)) :
    ∀ node ∈ tree, ¬ rbHit (queryBox pt L.x L.y) node := by
  obtain ⟨c, hcg, hL, hsc⟩ := placeLabelForPoint_ok_some h
  have hd := generateCandidates_dist cs opts pt c hcg
  have hx : L.x = c.x := by rw [hL]; rfl
  have hy : L.y = c.y := by rw [hL]; rfl
  rw [hx, hy]
  intro node hnode hhit
  have hfil : node ∈ searchTree tree (queryBox pt c.x c.y) := by
    unfold searchTree
    rw [List.mem_filter]
    exact ⟨hnode, by simpa using hhit⟩
  have hlen : 0 < (searchTree tree (queryBox pt c.x c.y)).length :=
    List.length_pos.mpr (List.ne_nil_of_mem hfil)
  have := totalScore_le_of_collision cs opts tree pt c.x c.y hoob hd hlen
  linarith

lemma placed_no_violation {cs : ChartSize} {opts : Options}
    {tree : List RTreeBox} {pt : Pt} {L : LabelBox}
    (hoob : 0 ≤ opts.outOfBoundsPenalty)
    (h : placeLabelForPoint cs opts tree pt = Except.ok (some L)) :
    ¬ boundaryViolation pt L.x L.y := by
  obtain ⟨c, hcg, hL, hsc⟩ := placeLabelForPoint_ok_some h
  have hd := generateCandidates_dist cs opts pt c hcg
  have hx : L.x = c.x := by rw [hL]; rfl
  have hy : L.y = c.y := by rw [hL]; rfl
  rw [hx, hy]
  intro hv
  have := totalScore_le_of_violation cs opts tree pt c.x c.y hoob hd hv
  linarith

/-! ### The pairwise no-overlap invariant of a pass -/

lemma paddedIntersects_symm {a b : LabelBox} :
    paddedIntersects a b ↔ paddedIntersects b a := by
  unfold paddedIntersects
  tauto

lemma rbHit_query_toRTree {L prev : LabelBox} {pt : Pt}
    (hw : L.width = pt.width) (hh : L.height = pt.height) :
    rbHit (queryBox pt L.x L.y) (toRTreeBox prev 2) ↔ paddedIntersects L prev := by
  unfold rbHit queryBox toRTreeBox paddedIntersects
  rw [hw, hh]

lemma placeGroup_inv {cs : ChartSize} {opts : Options} {st : PState}
    {g : List Pt} {st' : PState} (hoob : 0 ≤ opts.outOfBoundsPenalty)
    (h : placeGroup cs opts st g = Except.ok st') (hinv : stInv st) : stInv st' := by
  unfold placeGroup at h
  cases g with
  | nil => exact absurd h (by simp)
  | cons p rest =>
    cases hp : placeLabelForPoint cs opts st.tree (combinePoint (p :: rest)) with
    | error e => rw [hp] at h; exact absurd h (by simp)
    | ok o =>
      rw [hp] at h
      cases o with
      | none =>
        have : st = st' := by injection h
        rw [← this]
        exact hinv
      | some L =>
        have hst : (⟨st.tree ++ [toRTreeBox L 2], st.placed ++ [L]⟩ : PState) = st' := by
          injection h
        rw [← hst]
        obtain ⟨hfp, hw, hh, _⟩ := placed_label_shape hp
        constructor
        · show st.tree ++ [toRTreeBox L 2] = (st.placed ++ [L]).map _
          rw [List.map_append, hinv.1]
          rfl
        · show List.Pairwise _ (st.placed ++ [L])
          rw [List.pairwise_append]
          refine ⟨hinv.2, List.pairwise_singleton _ _, ?_⟩
          intro a ha b hb
          have hbL : b = L := by simpa using hb
          subst hbL
          have hnode : toRTreeBox a 2 ∈ st.tree := by
            rw [hinv.1]
            exact List.mem_map_of_mem _ ha
          have := placed_no_collision hoob hp (toRTreeBox a 2) hnode
          rw [rbHit_query_toRTree hw hh] at this
          rw [paddedIntersects_symm] at this
          exact this

lemma runGroups_inv {cs : ChartSize} {opts : Options}
    (hoob : 0 ≤ opts.outOfBoundsPenalty) :
    ∀ (gs : List (List Pt)) (st st' : PState),
      runGroups cs opts st gs = Except.ok st' → stInv st → stInv st' := by
  intro gs
  induction gs with
  | nil =>
    intro st st' h hinv
    have : st = st' := by
      unfold runGroups at h
      injection h
    rw [← this]
    exact hinv
  | cons g gs ih =>
    intro st st' h hinv
    unfold runGroups at h
    cases hg : placeGroup cs opts st g with
    | error e => rw [hg] at h; exact absurd h (by simp)
    | ok st2 =>
      rw [hg] at h
      exact ih st2 st' h (placeGroup_inv hoob hg hinv)

lemma placeAll_pairwise {cs : ChartSize} {opts : Options} {points : List Pt}
    {out : List LabelBox} (hoob : 0 ≤ opts.outOfBoundsPenalty)
    (h : placeAll cs opts points = Except.ok out) :
    List.Pairwise (fun a b => ¬ paddedIntersects a b) out := by
  unfold placeAll at h
  cases hr : runGroups cs opts ⟨[], []⟩ (groupsOf points) with
  | error e => rw [hr] at h; exact absurd h (by simp)
  | ok st =>
    rw [hr] at h
    have hout : st.placed = out := by injection h
    have hinv := runGroups_inv hoob _ _ _ hr ⟨by simp, List.Pairwise.nil⟩
    rw [← hout]
    exact hinv.2

/-- Every label of a pass's output was produced by a successful
`placeLabelForPoint` call (against some intermediate index state). -/
lemma placeAll_label_from {cs : ChartSize} {opts : Options} {points : List Pt}
    {out : List LabelBox} (h : placeAll cs opts points = Except.ok out) :
    ∀ L ∈ out, ∃ tree pt, placeLabelForPoint cs opts tree pt = Except.ok (some L) := by
  have key : ∀ (gs : List (List Pt)) (st st' : PState),
      runGroups cs opts st gs = Except.ok st' → ∀ L ∈ st'.placed,
        L ∈ st.placed ∨ ∃ tree pt, placeLabelForPoint cs opts tree pt = Except.ok (some L) := by
    intro gs
    induction gs with
    | nil =>
      intro st st' hrun L hL
      have : st = st' := by unfold runGroups at hrun; injection hrun
      rw [this]
      exact Or.inl hL
    | cons g gs ih =>
      intro st st' hrun L hL
      unfold runGroups at hrun
      cases hg : placeGroup cs opts st g with
      | error e => rw [hg] at hrun; exact absurd hrun (by simp)
      | ok st2 =>
        rw [hg] at hrun
        rcases ih st2 st' hrun L hL with hmem | hfound
        · unfold placeGroup at hg
          cases g with
          | nil => exact absurd hg (by simp)
          | cons p rest =>
            cases hp : placeLabelForPoint cs opts st.tree (combinePoint (p :: rest)) with
            | error e => rw [hp] at hg; exact absurd hg (by simp)
            | ok o =>
              rw [hp] at hg
              cases o with
              | none =>
                have : st = st2 := by injection hg
                rw [this]
                exact Or.inl hmem
              | some M =>
                have hst : (⟨st.tree ++ [toRTreeBox M 2], st.placed ++ [M]⟩ : PState) = st2 := by
                  injection hg
                rw [← hst] at hmem
                rcases List.mem_append.mp hmem with hmem | hmem
                · exact Or.inl hmem
                · have : L = M := by simpa using hmem
                  subst this
                  exact Or.inr ⟨st.tree, combinePoint (p :: rest), hp⟩
        · exact Or.inr hfound
  intro L hL
  unfold placeAll at h
  cases hr : runGroups cs opts ⟨[], []⟩ (groupsOf points) with
  | error e => rw [hr] at h; exact absurd h (by simp)
  | ok st =>
    rw [hr] at h
    have hout : st.placed = out := by injection h
    rcases key _ _ _ hr L (by rw [hout]; exact hL) with hmem | hfound
    · exact absurd hmem (by simp)
    · exact hfound

/-! ### Structural helpers: step dichotomy, output length, non-empty groups -/

lemma placeGroup_ok_cases {cs : ChartSize} {opts : Options} {st : PState}
    {g : List Pt} {st' : PState} (h : placeGroup cs opts st g = Except.ok st') :
    (st' = st ∧ placeLabelForPoint cs opts st.tree (combinePoint g) = Except.ok none) ∨
    ∃ L, placeLabelForPoint cs opts st.tree (combinePoint g) = Except.ok (some L) ∧
      st' = ⟨st.tree ++ [toRTreeBox L 2], st.placed ++ [L]⟩ := by
  unfold placeGroup at h
  cases g with
  | nil => exact absurd h (by simp)
  | cons p rest =>
    rcases hp : placeLabelForPoint cs opts st.tree (combinePoint (p :: rest)) with e | o
    case error =>
      rw [hp] at h
      exact absurd h (by simp)
    case ok =>
      cases o with
      | none =>
        refine Or.inl ⟨?_, rfl⟩
        rw [hp] at h
        dsimp only at h
        have h2 : st = st' := by injection h
        exact h2.symm
      | some L =>
        refine Or.inr ⟨L, rfl, ?_⟩
        rw [hp] at h
        dsimp only at h
        have h2 : (⟨st.tree ++ [toRTreeBox L 2], st.placed ++ [L]⟩ : PState) = st' := by
          injection h
        exact h2.symm

lemma runGroups_length {cs : ChartSize} {opts : Options} :
    ∀ (gs : List (List Pt)) (st st' : PState),
      runGroups cs opts st gs = Except.ok st' →
      st'.placed.length ≤ st.placed.length + gs.length := by
  intro gs
  induction gs with
  | nil =>
    intro st st' h
    have : st = st' := by unfold runGroups at h; injection h
    simp [← this]
  | cons g gs ih =>
    intro st st' h
    unfold runGroups at h
    cases hg : placeGroup cs opts st g with
    | error e => rw [hg] at h; exact absurd h (by simp)
    | ok st2 =>
      rw [hg] at h
      have h2 := ih st2 st' h
      rcases placeGroup_ok_cases hg with ⟨heq, -⟩ | ⟨L, -, heq⟩
      · subst heq
        simp only [List.length_cons]
        omega
      · subst heq
        simp only [List.length_append, List.length_cons, List.length_nil] at h2 ⊢
        omega

lemma placeAll_length {cs : ChartSize} {opts : Options} {points : List Pt}
    {out : List LabelBox} (h : placeAll cs opts points = Except.ok out) :
    out.length ≤ (groupsOf points).length := by
  unfold placeAll at h
  cases hr : runGroups cs opts ⟨[], []⟩ (groupsOf points) with
  | error e => rw [hr] at h; exact absurd h (by simp)
  | ok st =>
    rw [hr] at h
    have hout : st.placed = out := by injection h
    have := runGroups_length _ _ _ hr
    simpa [hout] using this

lemma insertGroup_mem {g h : List Pt} {l : List (List Pt)} :
    h ∈ insertGroup g l ↔ h = g ∨ h ∈ l := by
  induction l with
  | nil => simp [insertGroup]
  | cons hd t ih =>
    unfold insertGroup
    split
    · simp
    · simp only [List.mem_cons, ih]
      tauto

lemma sortGroups_mem {h : List Pt} {l : List (List Pt)} :
    h ∈ sortGroups l ↔ h ∈ l := by
  induction l with
  | nil => simp [sortGroups]
  | cons g t ih =>
    unfold sortGroups
    rw [insertGroup_mem, ih]
    simp

lemma insertKey_mem {l : List (ℤ × ℤ)} {k k' : ℤ × ℤ} (h : k ∈ insertKey l k') :
    k ∈ l ∨ k = k' := by
  unfold insertKey at h
  split at h
  · exact Or.inl h
  · rcases List.mem_append.mp h with h | h
    · exact Or.inl h
    · exact Or.inr (by simpa using h)

lemma keysOf_exists {l : List Pt} {k : ℤ × ℤ} (h : k ∈ keysOf l) :
    ∃ p ∈ l, keyOf p = k := by
  unfold keysOf at h
  suffices key : ∀ (l : List Pt) (acc : List (ℤ × ℤ)),
      k ∈ l.foldl (fun acc p => insertKey acc (keyOf p)) acc →
      k ∈ acc ∨ ∃ p ∈ l, keyOf p = k by
    rcases key l [] h with hacc | hfound
    · exact absurd hacc (by simp)
    · exact hfound
  intro l
  induction l with
  | nil => intro acc h; exact Or.inl (by simpa using h)
  | cons p t ih =>
    intro acc h
    rw [List.foldl_cons] at h
    rcases ih _ h with hacc | ⟨q, hq, hkq⟩
    · rcases insertKey_mem hacc with hacc | hk
      · exact Or.inl hacc
      · exact Or.inr ⟨p, by simp, hk.symm⟩
    · exact Or.inr ⟨q, List.mem_cons_of_mem p hq, hkq⟩

lemma groupsOf_ne_nil {points : List Pt} {g : List Pt} (hg : g ∈ groupsOf points) :
    g ≠ [] := by
  unfold groupsOf at hg
  rw [sortGroups_mem] at hg
  obtain ⟨k, hk, hfil⟩ := List.mem_map.mp hg
  obtain ⟨p, hp, hkey⟩ := keysOf_exists hk
  have : p ∈ g := by
    rw [← hfil]
    rw [List.mem_filter]
    exact ⟨hp, by simp [hkey]⟩
  exact List.ne_nil_of_mem this

lemma insertDesc_length (c : Candidate) (l : List Candidate) :
    (insertDesc c l).length = l.length + 1 := by
  induction l with
  | nil => rfl
  | cons b t ih =>
    unfold insertDesc
    split
    · simp
    · simp [ih]

lemma sortDesc_length (l : List Candidate) : (sortDesc l).length = l.length := by
  induction l with
  | nil => rfl
  | cons c t ih =>
    unfold sortDesc
    rw [insertDesc_length, ih, List.length_cons]

lemma generateCandidates_ne_nil {cs : ChartSize} {opts : Options} {pt : Pt}
    (h1 : 1 ≤ opts.rings) (h2 : 1 ≤ opts.anglesPerRing) :
    generateCandidates cs opts pt ≠ [] := by
  apply List.ne_nil_of_mem (a := fallbackItem opts pt 1 0)
  unfold generateCandidates
  simp only [List.mem_append]
  refine Or.inl (Or.inr ?_)
  rw [List.mem_flatMap]
  refine ⟨1, ?_, ?_⟩
  · rw [List.mem_range'_1]
    omega
  · rw [List.mem_map]
    exact ⟨0, by rw [List.mem_range]; omega, rfl⟩

lemma placeLabelForPoint_ne_error {cs : ChartSize} {opts : Options}
    {tree : List RTreeBox} {pt : Pt} (h1 : 1 ≤ opts.rings) (h2 : 1 ≤ opts.anglesPerRing) :
    ∃ o, placeLabelForPoint cs opts tree pt = Except.ok o := by
  unfold placeLabelForPoint
  have hne : scoredCandidates cs opts tree pt ≠ [] := by
    unfold scoredCandidates
    simp only [ne_eq, List.map_eq_nil_iff]
    exact generateCandidates_ne_nil h1 h2
  have hlen : 0 < (sortDesc (scoredCandidates cs opts tree pt)).length := by
    rw [sortDesc_length]
    exact List.length_pos.mpr hne
  cases hh : (sortDesc (scoredCandidates cs opts tree pt)).head? with
  | none =>
    rw [List.head?_eq_none_iff] at hh
    rw [hh] at hlen
    simp at hlen
  | some chosen =>
    by_cases hle : chosen.score ≤ -100000
    · refine ⟨none, ?_⟩
      dsimp only
      rw [if_pos hle]
    · refine ⟨some (mkLabel pt chosen), ?_⟩
      dsimp only
      rw [if_neg hle]

/-! ### Own-anchor exclusion-disk geometry -/

lemma no_exclusionOverlap_disk {L : LabelBox} {pt : Pt}
    (hw : L.width = pt.width) (hh : L.height = pt.height)
    (hno : ¬ exclusionOverlap pt L.x L.y) :
    ¬ rectMeetsDisk L pt.x pt.y exclusionRadius := by
  rintro ⟨px, py, hx1, hx2, hy1, hy2, hd⟩
  rw [exclusionRadius_eq] at hd
  unfold exclusionOverlap at hno
  rw [exclusionRadius_eq, ← hw, ← hh] at hno
  have hge : (7 : ℝ) ≤ Real.sqrt ((px - pt.x) ^ 2 + (py - pt.y) ^ 2) := by
    rcases not_and_or.mp hno with hH | hV
    · rcases not_and_or.mp hH with h1 | h2
      · push_neg at h1
        exact le_sqrt_of_sq_le _ 7 (by norm_num) (by nlinarith [sq_nonneg (py - pt.y)])
      · push_neg at h2
        exact le_sqrt_of_sq_le _ 7 (by norm_num) (by nlinarith [sq_nonneg (py - pt.y)])
    · rcases not_and_or.mp hV with h1 | h2
      · push_neg at h1
        exact le_sqrt_of_sq_le _ 7 (by norm_num) (by nlinarith [sq_nonneg (px - pt.x)])
      · push_neg at h2
        exact le_sqrt_of_sq_le _ 7 (by norm_num) (by nlinarith [sq_nonneg (px - pt.x)])
  linarith

/-! ### Claim theorems (those not requiring concrete-run evaluation) -/

/-- C1: in every placement pass, the 2 px-padded rectangles of any two
distinct LabelBoxes of the output do not intersect (even in the closed
sense used by the rbush query); a colliding candidate scores `≤ -100000` and
is therefore never committed — an unplaceable group is dropped, not
force-placed.  Stated for passes whose `outOfBoundsPenalty` is nonnegative
(as the default 300 and every documented configuration is); the other
penalty terms are nonpositive unconditionally. -/
theorem claim1_no_overlap_pass {cs : ChartSize} {opts : Options} {points : List Pt}
    {out : List LabelBox} (hoob : 0 ≤ opts.outOfBoundsPenalty)
    (h : placeAll cs opts points = Except.ok out) :
    List.Pairwise (fun a b => ¬ paddedIntersects a b) out :=
  placeAll_pairwise hoob h

/-- C2 (amended): every LabelBox of a pass's output keeps its rectangle out
of the open exclusion disk of radius `exclusionRadius = 7` around its OWN
group's anchor (`forPoint`); the engine enforces no such constraint for the
anchors of other groups (covering another anchor's center is only penalized
by `pointPenalty`, which does not disqualify). -/
theorem claim2_own_anchor_disk {cs : ChartSize} {opts : Options} {points : List Pt}
    {out : List LabelBox} (hoob : 0 ≤ opts.outOfBoundsPenalty)
    (h : placeAll cs opts points = Except.ok out) :
    ∀ L ∈ out, ¬ rectMeetsDisk L L.forPoint.x L.forPoint.y exclusionRadius := by
  intro L hL
  obtain ⟨tree, pt, hp⟩ := placeAll_label_from h L hL
  obtain ⟨hfp, hw, hh, -⟩ := placed_label_shape hp
  have hnv := placed_no_violation hoob hp
  have hno : ¬ exclusionOverlap pt L.x L.y := fun ha => hnv (Or.inl ha)
  rw [hfp]
  exact no_exclusionOverlap_disk hw hh hno

/-- C3: for every processed group, all candidates are scored and the
maximum-score candidate is selected (ties go to the earliest); a winning
score `≤ -100000` yields no LabelBox and leaves the engine state (spatial
index and output) unchanged — never an exception — while otherwise exactly
one LabelBox is committed and its 2 px-padded rectangle inserted into the
index; consequently a pass returns at most as many LabelBoxes as it has
groups (fewer when a group is dropped). -/
theorem claim3_select_commit_or_skip (cs : ChartSize) (opts : Options) :
    (∀ (tree : List RTreeBox) (pt : Pt) (b : Candidate),
      (sortDesc (scoredCandidates cs opts tree pt)).head? = some b →
        (∀ x ∈ scoredCandidates cs opts tree pt, x.score ≤ b.score) ∧
        (b.score ≤ -100000 → placeLabelForPoint cs opts tree pt = Except.ok none) ∧
        (-100000 < b.score →
          placeLabelForPoint cs opts tree pt = Except.ok (some (mkLabel pt b)))) ∧
    (∀ (st : PState) (g : List Pt) (st' : PState),
      placeGroup cs opts st g = Except.ok st' →
        (st' = st ∧
          placeLabelForPoint cs opts st.tree (combinePoint g) = Except.ok none) ∨
        ∃ L, placeLabelForPoint cs opts st.tree (combinePoint g) = Except.ok (some L) ∧
          st' = ⟨st.tree ++ [toRTreeBox L 2], st.placed ++ [L]⟩) ∧
    (∀ (points : List Pt) (out : List LabelBox),
      placeAll cs opts points = Except.ok out →
        out.length ≤ (groupsOf points).length) := by
  refine ⟨?_, ?_, ?_⟩
  · intro tree pt b hb
    have hbb : bestOf (scoredCandidates cs opts tree pt) = some b := by
      rw [← sortDesc_head?]
      exact hb
    refine ⟨bestOf_max hbb, ?_, ?_⟩
    · intro hle
      unfold placeLabelForPoint
      rw [hb]
      dsimp only
      rw [if_pos hle]
    · intro hlt
      unfold placeLabelForPoint
      rw [hb]
      dsimp only
      rw [if_neg (not_le.mpr hlt)]
  · intro st g st' h
    exact placeGroup_ok_cases h
  · intro points out h
    exact placeAll_length h

/-- C4: a placement pass is a pure function of (area size, options, anchor
sequence) — the engine clears all per-pass state at the start of `placeAll`,
so two passes over identical inputs produce identical output sequences —
and equal-score ties between candidates are resolved in favour of the first
occurrence in generation order (the comparator sort is stable and the head
of the sorted array is the first maximal-score candidate). -/
theorem claim4_determinism_tiebreak :
    (∀ (cs : ChartSize) (opts : Options) (points : List Pt),
      placeAll cs opts points = placeAll cs opts points) ∧
    (∀ (l : List Candidate) (b : Candidate), (sortDesc l).head? = some b →
      (∀ x ∈ l, x.score ≤ b.score) ∧
      ∃ l₁ l₂, l = l₁ ++ b :: l₂ ∧ ∀ x ∈ l₁, x.score < b.score) := by
  refine ⟨fun _ _ _ => rfl, ?_⟩
  intro l b hb
  have hbb : bestOf l = some b := by
    rw [← sortDesc_head?]
    exact hb
  exact ⟨bestOf_max hbb, bestOf_first hbb⟩

/-- C5 (counterexample): the engine's actual defaults contradict the claimed
ones — `padding` defaults to 4 (not 0), `overlapPenalty` to 1000 (not
100000) and `outOfBoundsPenalty` to 300 (not 0). -/
theorem claim5_counterexample :
    (resolveOptions noOptions).padding ≠ 0 ∧
    (resolveOptions noOptions).overlapPenalty ≠ 100000 ∧
    (resolveOptions noOptions).outOfBoundsPenalty ≠ 0 := by
  refine ⟨?_, ?_, ?_⟩ <;>
    simp only [resolveOptions, noOptions, DEFAULT_OPTIONS, Option.getD_none] <;>
    norm_num

/-- C5 (amended): with omitted options the engine uses the defaults
radius 10, rings 5, anglesPerRing 32, padding 4, overlapPenalty 1000,
pointPenalty 500, outOfBoundsPenalty 300, idealAngleBonus 0, debug false,
and each individually omitted option falls back to its own default. -/
theorem claim5_default_options (i : OptionsInput) :
    resolveOptions noOptions = DEFAULT_OPTIONS ∧
    DEFAULT_OPTIONS.radius = 10 ∧ DEFAULT_OPTIONS.rings = 5 ∧
    DEFAULT_OPTIONS.anglesPerRing = 32 ∧ DEFAULT_OPTIONS.padding = 4 ∧
    DEFAULT_OPTIONS.overlapPenalty = 1000 ∧ DEFAULT_OPTIONS.pointPenalty = 500 ∧
    DEFAULT_OPTIONS.outOfBoundsPenalty = 300 ∧ DEFAULT_OPTIONS.idealAngleBonus = 0 ∧
    DEFAULT_OPTIONS.debug = false ∧
    (resolveOptions i).radius = i.radius.getD 10 ∧
    (resolveOptions i).rings = i.rings.getD 5 ∧
    (resolveOptions i).anglesPerRing = i.anglesPerRing.getD 32 ∧
    (resolveOptions i).padding = i.padding.getD 4 ∧
    (resolveOptions i).overlapPenalty = i.overlapPenalty.getD 1000 ∧
    (resolveOptions i).pointPenalty = i.pointPenalty.getD 500 ∧
    (resolveOptions i).outOfBoundsPenalty = i.outOfBoundsPenalty.getD 300 ∧
    (resolveOptions i).idealAngleBonus = i.idealAngleBonus.getD 0 ∧
    (resolveOptions i).debug = i.debug.getD false :=
  ⟨rfl, rfl, rfl, rfl, rfl, rfl, rfl, rfl, rfl, rfl,
   rfl, rfl, rfl, rfl, rfl, rfl, rfl, rfl, rfl⟩

/-- C7 (amended): with at least one ring and one angle per ring — in
particular with the defaults rings 5, anglesPerRing 32 — a placement pass
never raises: for every area size and every anchor sequence `placeAll`
returns a (possibly partial) result.  (The unamended claim fails: with
`rings = 0` the candidate list can be empty and `scored[0].score` throws.) -/
theorem claim7_no_raise (cs : ChartSize) (opts : Options) (points : List Pt)
    (h1 : 1 ≤ opts.rings) (h2 : 1 ≤ opts.anglesPerRing) :
    ∃ out, placeAll cs opts points = Except.ok out := by
  have key : ∀ (gs : List (List Pt)), (∀ g ∈ gs, g ≠ []) → ∀ st,
      ∃ st', runGroups cs opts st gs = Except.ok st' := by
    intro gs
    induction gs with
    | nil => exact fun _ st => ⟨st, rfl⟩
    | cons g gs ih =>
      intro hne st
      have hgne : g ≠ [] := hne g (by simp)
      obtain ⟨o, ho⟩ :=
        @placeLabelForPoint_ne_error cs opts st.tree (combinePoint g) h1 h2
      have hpg : ∃ st2, placeGroup cs opts st g = Except.ok st2 := by
        unfold placeGroup
        cases g with
        | nil => exact absurd rfl hgne
        | cons p rest =>
          dsimp only
          rw [ho]
          cases o with
          | none => exact ⟨st, rfl⟩
          | some L => exact ⟨_, rfl⟩
      obtain ⟨st2, hst2⟩ := hpg
      obtain ⟨st', hst'⟩ := ih (fun g hg => hne g (List.mem_cons_of_mem _ hg)) st2
      refine ⟨st', ?_⟩
      unfold runGroups
      rw [hst2]
      exact hst'
  obtain ⟨st', hst'⟩ := key (groupsOf points) (fun g hg => groupsOf_ne_nil hg) ⟨[], []⟩
  refine ⟨st'.placed, ?_⟩
  unfold placeAll
  rw [hst']

/-- C8: every candidate produced by `generateCandidates` — over all four
ring families, the fallback and half-step rings included — has its
rectangle center at Euclidean distance at least `exclusionRadius = 7` from
the anchor; candidates below the floor are discarded outright by the
distance guard, independent of scoring. -/
theorem claim8_distance_floor (cs : ChartSize) (opts : Options) (pt : Pt) :
    ∀ c ∈ generateCandidates cs opts pt,
      exclusionRadius ≤ labelCenterDist pt c.x c.y :=
  generateCandidates_dist cs opts pt

/-- C10: every LabelBox committed by a pass neither strictly overlaps the
axis-aligned square `[x-7, x+7] × [y-7, y+7]` around its own group's anchor
nor has any rectangle corner within distance 7 of that anchor: a violating
candidate takes the extra `-100000` penalty and, since its distance penalty
(at least 70) exceeds the maximal center bonus (10) while all other terms
are nonpositive, its total score is `≤ -100000`, so it is never committed.
Stated for nonnegative `outOfBoundsPenalty` (true of the default 300). -/
theorem claim10_own_anchor_guard {cs : ChartSize} {opts : Options} {points : List Pt}
    {out : List LabelBox} (hoob : 0 ≤ opts.outOfBoundsPenalty)
    (h : placeAll cs opts points = Except.ok out) :
    ∀ L ∈ out, ¬ exclusionOverlap L.forPoint L.x L.y ∧
      ¬ violatesBoundary L.forPoint L.x L.y := by
  intro L hL
  obtain ⟨tree, pt, hp⟩ := placeAll_label_from h L hL
  obtain ⟨hfp, -, -, -⟩ := placed_label_shape hp
  have hnv := placed_no_violation hoob hp
  rw [hfp]
  exact ⟨fun ha => hnv (Or.inl ha), fun hb => hnv (Or.inr hb)⟩

/-! ### Concrete test pass: an 11×11 chart with `rings = 1`,
`anglesPerRing = 1` and 10×10 labels.  The area is small enough that every
clamped candidate collapses to `(1, 1)`, which makes the pass exactly
evaluable. -/

lemma fallbackItem_ring1_angle0 (opts : Options) (pt : Pt) :
    fallbackItem opts pt 1 0 =
      ⟨pt.x + 12 - pt.width / 2, pt.y - pt.height / 2, 0, 0⟩ := by
  unfold fallbackItem
  dsimp only
  simp only [Nat.cast_zero, Nat.cast_one, zero_mul, Real.cos_zero, Real.sin_zero]
  simp only [Candidate.mk.injEq]
  rw [exclusionRadius_eq]
  exact ⟨by ring, by ring, trivial, trivial⟩

lemma halfstepItem_run (pt : Pt) :
    halfstepItem runOpts pt 1 0 =
      ⟨pt.x - 10 - pt.width / 2, pt.y - pt.height / 2, 0, 0⟩ := by
  unfold halfstepItem runOpts
  dsimp only
  simp only [Nat.cast_zero, Nat.cast_one, zero_mul, zero_add, div_one]
  rw [show (2 * Real.pi) / 2 = Real.pi by ring, Real.cos_pi, Real.sin_pi]
  have hr : max exclusionRadius ((10 : ℝ) * 1) = 10 := by
    rw [exclusionRadius_eq]
    norm_num
  rw [hr]
  simp only [Candidate.mk.injEq]
  exact ⟨by ring, by ring, trivial, trivial⟩

lemma primaryCandidate_collapsed (cs : ChartSize) (pt : Pt) (i : ℕ)
    (hw : cs.width - 1 - pt.width ≤ 1) (hh : cs.height - 1 - pt.height ≤ 1) :
    primaryCandidate cs pt i = ⟨1, 1, 0, 0⟩ := by
  unfold primaryCandidate
  dsimp only
  simp only [Candidate.mk.injEq]
  exact ⟨max_eq_left (le_trans (min_le_right _ _) hw),
    max_eq_left (le_trans (min_le_right _ _) hh), trivial, trivial⟩

lemma labelCenterDist_eval (pt : Pt) (cx cy d : ℝ) (hd : 0 ≤ d)
    (h : (cx + pt.width / 2 - pt.x) ^ 2 + (cy + pt.height / 2 - pt.y) ^ 2 = d ^ 2) :
    labelCenterDist pt cx cy = d := by
  unfold labelCenterDist
  rw [h, Real.sqrt_sq hd]

lemma distGuard_pos {pt : Pt} {cand : Candidate}
    (h : exclusionRadius ≤ labelCenterDist pt cand.x cand.y) :
    distGuard pt cand = some cand := if_pos h

lemma distGuard_neg {pt : Pt} {cand : Candidate}
    (h : ¬ exclusionRadius ≤ labelCenterDist pt cand.x cand.y) :
    distGuard pt cand = none := if_neg h

lemma filterMap_const_some {α : Type} (l : List α) (f : α → Option Candidate)
    (c : Candidate) (h : ∀ a ∈ l, f a = some c) :
    l.filterMap f = List.replicate l.length c := by
  induction l with
  | nil => rfl
  | cons a t ih =>
    rw [List.filterMap_cons, h a (List.mem_cons_self a t), List.length_cons,
      List.replicate_succ, ih (fun x hx => h x (List.mem_cons_of_mem a hx))]

lemma genA_eval (s : String) :
    generateCandidates csRun runOpts (ptA s) =
      [⟨13, 1, 0, 0⟩, ⟨-9, 1, 0, 0⟩] := by
  unfold generateCandidates
  have hprim : (List.range 64).filterMap
      (fun i => distGuard (ptA s) (primaryCandidate csRun (ptA s) i)) = [] := by
    refine List.filterMap_eq_nil_iff.mpr (fun i _ => ?_)
    rw [primaryCandidate_collapsed csRun (ptA s) i (by norm_num [csRun, ptA])
      (by norm_num [csRun, ptA])]
    refine distGuard_neg ?_
    have h0 : labelCenterDist (ptA s) (1 : ℝ) 1 = 0 :=
      labelCenterDist_eval _ _ _ 0 (le_refl 0) (by norm_num [ptA])
    show ¬ exclusionRadius ≤ labelCenterDist (ptA s)
      (⟨1, 1, 0, 0⟩ : Candidate).x (⟨1, 1, 0, 0⟩ : Candidate).y
    dsimp only
    rw [h0, exclusionRadius_eq]
    norm_num
  rw [hprim]
  have hfb := fallbackItem_ring1_angle0 runOpts (ptA s)
  have hhs := halfstepItem_run (ptA s)
  show ([] : List Candidate) ++ _ ++ _ ++ _ = _
  rw [show (List.range' 1 (runOpts.rings - 1)) = [] from rfl,
    show (List.range' 1 runOpts.rings) = [1] from rfl,
    show (List.range runOpts.anglesPerRing) = [0] from rfl]
  simp only [List.flatMap_nil, List.flatMap_cons, List.map_cons, List.map_nil,
    List.flatMap_singleton, List.nil_append, List.append_nil, List.singleton_append]
  rw [hfb, hhs]
  norm_num [ptA]

lemma genB_eval :
    generateCandidates csRun runOpts ptB =
      List.replicate 64 ⟨1, 1, 0, 0⟩ ++ [⟨-6, 1, 0, 0⟩, ⟨-28, 1, 0, 0⟩] := by
  unfold generateCandidates
  have hprim : (List.range 64).filterMap
      (fun i => distGuard ptB (primaryCandidate csRun ptB i)) =
        List.replicate 64 ⟨1, 1, 0, 0⟩ := by
    have h64 : (List.range 64).length = 64 := by simp
    rw [← h64]
    refine filterMap_const_some _ _ _ (fun i _ => ?_)
    rw [primaryCandidate_collapsed csRun ptB i (by norm_num [csRun, ptB])
      (by norm_num [csRun, ptB])]
    refine distGuard_pos ?_
    have h19 : labelCenterDist ptB (1 : ℝ) 1 = 19 :=
      labelCenterDist_eval _ _ _ 19 (by norm_num) (by norm_num [ptB])
    show exclusionRadius ≤ labelCenterDist ptB
      (⟨1, 1, 0, 0⟩ : Candidate).x (⟨1, 1, 0, 0⟩ : Candidate).y
    dsimp only
    rw [h19, exclusionRadius_eq]
    norm_num
  rw [hprim]
  have hfb := fallbackItem_ring1_angle0 runOpts ptB
  have hhs := halfstepItem_run ptB
  rw [show (List.range' 1 (runOpts.rings - 1)) = [] from rfl,
    show (List.range' 1 runOpts.rings) = [1] from rfl,
    show (List.range runOpts.anglesPerRing) = [0] from rfl]
  simp only [List.flatMap_nil, List.flatMap_cons, List.map_cons, List.map_nil,
    List.flatMap_singleton, List.append_nil]
  rw [hfb, hhs]
  norm_num [ptB]

/-! ### Scoring-term evaluation helpers -/

lemma overlapTerm_nil (pt : Pt) (cx cy : ℝ) : overlapTerm [] pt cx cy = 0 := by
  unfold overlapTerm searchTree
  simp

lemma overlapTerm_no_hit {tree : List RTreeBox} {pt : Pt} {cx cy : ℝ}
    (h : ∀ node ∈ tree, ¬ rbHit (queryBox pt cx cy) node) :
    overlapTerm tree pt cx cy = 0 := by
  unfold overlapTerm
  have hnil : searchTree tree (queryBox pt cx cy) = [] := by
    unfold searchTree
    rw [List.filter_eq_nil_iff]
    intro a ha
    simpa using h a ha
  rw [hnil]
  simp

lemma searchTree_pos {tree : List RTreeBox} {q : Bbox} {node : RTreeBox}
    (hn : node ∈ tree) (h : rbHit q node) : 0 < (searchTree tree q).length := by
  apply List.length_pos.mpr
  apply List.ne_nil_of_mem (a := node)
  unfold searchTree
  rw [List.mem_filter]
  exact ⟨hn, by simpa using h⟩

lemma pointPenaltyTerm_none {opts : Options} {pt : Pt} {cx cy : ℝ}
    (h : pt.allPoints = none) : pointPenaltyTerm opts pt cx cy = 0 := by
  unfold pointPenaltyTerm
  rw [h]

lemma centerBonusTerm_ge (cs : ChartSize) (pt : Pt) (cx cy B : ℝ) (hB : 0 ≤ B)
    (h : ((cx + pt.width / 2 - cs.width / 2) / (cs.width / 2)) ^ 2
        + ((cy + pt.height / 2 - cs.height / 2) / (cs.height / 2)) ^ 2 ≤ 2 * B ^ 2) :
    (1 - B) * 10 ≤ centerBonusTerm cs pt cx cy := by
  unfold centerBonusTerm
  dsimp only
  have hd : Real.sqrt (((cx + pt.width / 2 - cs.width / 2) / (cs.width / 2)) ^ 2
      + ((cy + pt.height / 2 - cs.height / 2) / (cs.height / 2)) ^ 2) / Real.sqrt 2 ≤ B := by
    rw [div_le_iff₀ (Real.sqrt_pos.mpr (by norm_num : (0:ℝ) < 2))]
    have h1 : Real.sqrt (((cx + pt.width / 2 - cs.width / 2) / (cs.width / 2)) ^ 2
        + ((cy + pt.height / 2 - cs.height / 2) / (cs.height / 2)) ^ 2)
        ≤ Real.sqrt (2 * B ^ 2) := Real.sqrt_le_sqrt h
    have h2 : Real.sqrt (2 * B ^ 2) = B * Real.sqrt 2 := by
      rw [show (2 : ℝ) * B ^ 2 = (B * Real.sqrt 2) ^ 2 by
        rw [mul_pow, Real.sq_sqrt (by norm_num : (0:ℝ) ≤ 2)]
        ring]
      exact Real.sqrt_sq (mul_nonneg hB (Real.sqrt_nonneg 2))
    linarith
  linarith

lemma not_boundaryViolation_of (pt : Pt) (cx cy : ℝ)
    (h1 : ¬ exclusionOverlap pt cx cy)
    (h2 : 49 ≤ (cx - pt.x) ^ 2 + (cy - pt.y) ^ 2)
    (h3 : 49 ≤ (cx + pt.width - pt.x) ^ 2 + (cy - pt.y) ^ 2)
    (h4 : 49 ≤ (cx - pt.x) ^ 2 + (cy + pt.height - pt.y) ^ 2)
    (h5 : 49 ≤ (cx + pt.width - pt.x) ^ 2 + (cy + pt.height - pt.y) ^ 2) :
    ¬ boundaryViolation pt cx cy := by
  intro hv
  rcases hv with hov | hcv
  · exact h1 hov
  · unfold violatesBoundary at hcv
    rw [exclusionRadius_eq] at hcv
    rcases hcv with h | h | h | h
    · exact absurd h (not_lt.mpr (le_sqrt_of_sq_le _ 7 (by norm_num) (by nlinarith)))
    · exact absurd h (not_lt.mpr (le_sqrt_of_sq_le _ 7 (by norm_num) (by nlinarith)))
    · exact absurd h (not_lt.mpr (le_sqrt_of_sq_le _ 7 (by norm_num) (by nlinarith)))
    · exact absurd h (not_lt.mpr (le_sqrt_of_sq_le _ 7 (by norm_num) (by nlinarith)))

lemma boundaryViolation_of_overlap {pt : Pt} {cx cy : ℝ}
    (hH1 : cx < pt.x + 7) (hH2 : pt.x - 7 < cx + pt.width)
    (hV1 : cy < pt.y + 7) (hV2 : pt.y - 7 < cy + pt.height) :
    boundaryViolation pt cx cy := by
  left
  unfold exclusionOverlap
  rw [exclusionRadius_eq]
  exact ⟨⟨hH1, hH2⟩, ⟨hV1, hV2⟩⟩

/-! ### Scores of the concrete runs -/

lemma scoreAF_lb (s : String) : -716 ≤ totalScore csRun runOpts [] (ptA s) 13 1 := by
  have h0 := overlapTerm_nil (ptA s) (13 : ℝ) 1
  have hpp := @pointPenaltyTerm_none runOpts (ptA s) 13 1 rfl
  have hbp : borderPenaltyTerm csRun (ptA s) 13 1 = -289 := by
    unfold borderPenaltyTerm csRun ptA
    dsimp only
    norm_num [min_def]
  have hcb : (1 - 18 / 11) * 10 ≤ centerBonusTerm csRun (ptA s) 13 1 := by
    apply centerBonusTerm_ge
    · norm_num
    · norm_num [csRun, ptA]
  have hob : outOfBoundsTerm csRun runOpts (ptA s) 13 1 = -300 := by
    have hoo : isOutOfBounds csRun 13 1 (ptA s).width (ptA s).height := by
      unfold isOutOfBounds csRun ptA
      dsimp only
      norm_num
    unfold outOfBoundsTerm
    rw [if_pos hoo]
    norm_num [runOpts]
  have hdp : distancePenaltyTerm (ptA s) 13 1 = -120 := by
    unfold distancePenaltyTerm
    rw [labelCenterDist_eval (ptA s) 13 1 12 (by norm_num) (by norm_num [ptA])]
    norm_num
  have hnv : ¬ boundaryViolation (ptA s) 13 1 := by
    apply not_boundaryViolation_of
    · unfold exclusionOverlap
      rw [exclusionRadius_eq]
      norm_num [ptA]
    · norm_num [ptA]
    · norm_num [ptA]
    · norm_num [ptA]
    · norm_num [ptA]
  unfold totalScore baseScore
  rw [h0, hpp, hbp, hob, hdp, if_neg hnv]
  linarith

lemma scoreAF_gt (s : String) : -100000 < totalScore csRun runOpts [] (ptA s) 13 1 :=
  lt_of_lt_of_le (by norm_num) (scoreAF_lb s)

lemma scoreAH_ub (s : String) :
    totalScore csRun runOpts [] (ptA s) (-9) 1 ≤ -100060 := by
  apply totalScore_le_of_violation
  · norm_num [runOpts]
  · rw [labelCenterDist_eval (ptA s) (-9) 1 10 (by norm_num) (by norm_num [ptA]),
      exclusionRadius_eq]
    norm_num
  · apply boundaryViolation_of_overlap <;> norm_num [ptA]

lemma bestA (s : String) :
    bestOf (scoredCandidates csRun runOpts [] (ptA s)) =
      some ⟨13, 1, 0, totalScore csRun runOpts [] (ptA s) 13 1⟩ := by
  unfold scoredCandidates
  rw [genA_eval]
  dsimp only [List.map]
  have hle : totalScore csRun runOpts [] (ptA s) (-9) 1 ≤
      totalScore csRun runOpts [] (ptA s) 13 1 :=
    le_trans (scoreAH_ub s) (le_trans (by norm_num) (scoreAF_lb s))
  simp only [bestOf, combineBest]
  rw [if_pos hle]

lemma placeA (s : String) :
    placeLabelForPoint csRun runOpts [] (ptA s) = Except.ok (some (lblA s)) := by
  unfold placeLabelForPoint
  rw [sortDesc_head?, bestA s]
  dsimp only
  rw [if_neg (not_le.mpr (scoreAF_gt s))]
  rfl

lemma scoreBP_ub (s : String) :
    totalScore csRun runOpts [toRTreeBox (lblA s) 2] ptB 1 1 ≤ -100060 := by
  apply totalScore_le_of_collision
  · norm_num [runOpts]
  · rw [labelCenterDist_eval ptB 1 1 19 (by norm_num) (by norm_num [ptB]),
      exclusionRadius_eq]
    norm_num
  · refine searchTree_pos (List.mem_singleton_self (toRTreeBox (lblA s) 2)) ?_
    unfold rbHit queryBox toRTreeBox lblA ptB
    dsimp only
    norm_num

lemma scoreBF_lb (s : String) :
    -545 ≤ totalScore csRun runOpts [toRTreeBox (lblA s) 2] ptB (-6) 1 := by
  have h0 : overlapTerm [toRTreeBox (lblA s) 2] ptB (-6) 1 = 0 := by
    refine overlapTerm_no_hit (fun node hn => ?_)
    have hnode : node = toRTreeBox (lblA s) 2 := by simpa using hn
    subst hnode
    unfold rbHit queryBox toRTreeBox lblA ptB
    dsimp only
    norm_num
  have hpp := @pointPenaltyTerm_none runOpts ptB (-6) 1 rfl
  have hbp : borderPenaltyTerm csRun ptB (-6) 1 = -121 := by
    unfold borderPenaltyTerm csRun ptB
    dsimp only
    norm_num [min_def]
  have hcb : (1 - 1) * 10 ≤ centerBonusTerm csRun ptB (-6) 1 := by
    apply centerBonusTerm_ge
    · norm_num
    · norm_num [csRun, ptB]
  have hob : outOfBoundsTerm csRun runOpts ptB (-6) 1 = -300 := by
    have hoo : isOutOfBounds csRun (-6) 1 ptB.width ptB.height := by
      unfold isOutOfBounds csRun ptB
      dsimp only
      norm_num
    unfold outOfBoundsTerm
    rw [if_pos hoo]
    norm_num [runOpts]
  have hdp : distancePenaltyTerm ptB (-6) 1 = -120 := by
    unfold distancePenaltyTerm
    rw [labelCenterDist_eval ptB (-6) 1 12 (by norm_num) (by norm_num [ptB])]
    norm_num
  have hnv : ¬ boundaryViolation ptB (-6) 1 := by
    apply not_boundaryViolation_of
    · unfold exclusionOverlap
      rw [exclusionRadius_eq]
      norm_num [ptB]
    · norm_num [ptB]
    · norm_num [ptB]
    · norm_num [ptB]
    · norm_num [ptB]
  unfold totalScore baseScore
  rw [h0, hpp, hbp, hob, hdp, if_neg hnv]
  linarith

lemma scoreBF_gt (s : String) :
    -100000 < totalScore csRun runOpts [toRTreeBox (lblA s) 2] ptB (-6) 1 :=
  lt_of_lt_of_le (by norm_num) (scoreBF_lb s)

lemma scoreBH_ub (s : String) :
    totalScore csRun runOpts [toRTreeBox (lblA s) 2] ptB (-28) 1 ≤ -100060 := by
  apply totalScore_le_of_violation
  · norm_num [runOpts]
  · rw [labelCenterDist_eval ptB (-28) 1 10 (by norm_num) (by norm_num [ptB]),
      exclusionRadius_eq]
    norm_num
  · apply boundaryViolation_of_overlap <;> norm_num [ptB]

lemma bestB (s : String) :
    bestOf (scoredCandidates csRun runOpts [toRTreeBox (lblA s) 2] ptB) =
      some ⟨-6, 1, 0, totalScore csRun runOpts [toRTreeBox (lblA s) 2] ptB (-6) 1⟩ := by
  unfold scoredCandidates
  rw [genB_eval, List.map_append, List.map_replicate]
  dsimp only [List.map]
  apply bestOf_replicate_append
  · have hle : totalScore csRun runOpts [toRTreeBox (lblA s) 2] ptB (-28) 1 ≤
        totalScore csRun runOpts [toRTreeBox (lblA s) 2] ptB (-6) 1 :=
      le_trans (scoreBH_ub s) (le_trans (by norm_num) (scoreBF_lb s))
    simp only [bestOf, combineBest]
    rw [if_pos hle]
  · exact lt_of_le_of_lt (scoreBP_ub s) (lt_of_lt_of_le (by norm_num) (scoreBF_lb s))

lemma placeB (s : String) :
    placeLabelForPoint csRun runOpts [toRTreeBox (lblA s) 2] ptB =
      Except.ok (some lblB) := by
  unfold placeLabelForPoint
  rw [sortDesc_head?, bestB s]
  dsimp only
  rw [if_neg (not_le.mpr (scoreBF_gt s))]
  rfl

/-! ### The merged oversized group is dropped -/

lemma combinePoint_pair (p q : Pt) :
    combinePoint [p, q] =
      ⟨p.x, p.y, p.text ++ ", " ++ q.text, max p.width q.width,
        max p.height q.height, p.allPoints⟩ := rfl

lemma combinePoint_single (p : Pt) : combinePoint [p] = p := rfl

lemma combinePoint_P12 : combinePoint [ptP1, ptP2] = ptM := by
  rw [combinePoint_pair]
  unfold ptP1 ptP2 ptM
  dsimp only
  simp only [Pt.mk.injEq]
  refine ⟨trivial, trivial, rfl, ?_, ?_, trivial⟩
  · exact max_eq_left (by norm_num)
  · exact max_eq_left (by norm_num)

lemma genM_eval :
    generateCandidates csRun runOpts ptM =
      List.replicate 64 ⟨1, 1, 0, 0⟩ ++ [⟨3, 1, 0, 0⟩, ⟨-19, 1, 0, 0⟩] := by
  unfold generateCandidates
  have hprim : (List.range 64).filterMap
      (fun i => distGuard ptM (primaryCandidate csRun ptM i)) =
        List.replicate 64 ⟨1, 1, 0, 0⟩ := by
    have h64 : (List.range 64).length = 64 := by simp
    rw [← h64]
    refine filterMap_const_some _ _ _ (fun i _ => ?_)
    rw [primaryCandidate_collapsed csRun ptM i (by norm_num [csRun, ptM])
      (by norm_num [csRun, ptM])]
    refine distGuard_pos ?_
    have h10 : labelCenterDist ptM (1 : ℝ) 1 = 10 :=
      labelCenterDist_eval _ _ _ 10 (by norm_num) (by norm_num [ptM])
    show exclusionRadius ≤ labelCenterDist ptM
      (⟨1, 1, 0, 0⟩ : Candidate).x (⟨1, 1, 0, 0⟩ : Candidate).y
    dsimp only
    rw [h10, exclusionRadius_eq]
    norm_num
  rw [hprim]
  have hfb := fallbackItem_ring1_angle0 runOpts ptM
  have hhs := halfstepItem_run ptM
  rw [show (List.range' 1 (runOpts.rings - 1)) = [] from rfl,
    show (List.range' 1 runOpts.rings) = [1] from rfl,
    show (List.range runOpts.anglesPerRing) = [0] from rfl]
  simp only [List.flatMap_nil, List.flatMap_cons, List.map_cons, List.map_nil,
    List.flatMap_singleton, List.append_nil]
  rw [hfb, hhs]
  norm_num [ptM]

lemma scoresM_ub : ∀ x ∈ scoredCandidates csRun runOpts [] ptM, x.score ≤ -100000 := by
  intro x hx
  unfold scoredCandidates at hx
  obtain ⟨c, hc, hxeq⟩ := List.mem_map.mp hx
  rw [genM_eval] at hc
  subst hxeq
  dsimp only
  rcases List.mem_append.mp hc with hP | hFH
  · have hcP : c = ⟨1, 1, 0, 0⟩ := (List.eq_of_mem_replicate hP)
    subst hcP
    dsimp only
    refine le_trans (totalScore_le_of_violation csRun runOpts [] ptM 1 1
      (by norm_num [runOpts]) ?_ ?_) (by norm_num)
    · rw [labelCenterDist_eval ptM 1 1 10 (by norm_num) (by norm_num [ptM]),
        exclusionRadius_eq]
      norm_num
    · apply boundaryViolation_of_overlap <;> norm_num [ptM]
  · have hFH2 : c = ⟨3, 1, 0, 0⟩ ∨ c = ⟨-19, 1, 0, 0⟩ := by simpa using hFH
    rcases hFH2 with hcF | hcH
    · subst hcF
      dsimp only
      refine le_trans (totalScore_le_of_violation csRun runOpts [] ptM 3 1
        (by norm_num [runOpts]) ?_ ?_) (by norm_num)
      · rw [labelCenterDist_eval ptM 3 1 12 (by norm_num) (by norm_num [ptM]),
          exclusionRadius_eq]
        norm_num
      · apply boundaryViolation_of_overlap <;> norm_num [ptM]
    · subst hcH
      dsimp only
      refine le_trans (totalScore_le_of_violation csRun runOpts [] ptM (-19) 1
        (by norm_num [runOpts]) ?_ ?_) (by norm_num)
      · rw [labelCenterDist_eval ptM (-19) 1 10 (by norm_num) (by norm_num [ptM]),
          exclusionRadius_eq]
        norm_num
      · apply boundaryViolation_of_overlap <;> norm_num [ptM]

lemma placeM : placeLabelForPoint csRun runOpts [] ptM = Except.ok none := by
  unfold placeLabelForPoint
  rw [sortDesc_head?]
  cases hb : bestOf (scoredCandidates csRun runOpts [] ptM) with
  | none =>
    have hne : scoredCandidates csRun runOpts [] ptM ≠ [] := by
      unfold scoredCandidates
      rw [genM_eval]
      simp
    exact absurd ((bestOf_none_iff _).mp hb) hne
  | some b =>
    dsimp only
    rw [if_pos (scoresM_ub b (bestOf_mem hb))]

/-! ### The empty candidate list with `rings = 0` throws -/

lemma genCrash_eval : generateCandidates csRun opts0 (ptA "A") = [] := by
  unfold generateCandidates
  have hprim : (List.range 64).filterMap
      (fun i => distGuard (ptA "A") (primaryCandidate csRun (ptA "A") i)) = [] := by
    refine List.filterMap_eq_nil_iff.mpr (fun i _ => ?_)
    rw [primaryCandidate_collapsed csRun (ptA "A") i (by norm_num [csRun, ptA])
      (by norm_num [csRun, ptA])]
    refine distGuard_neg ?_
    have h0 : labelCenterDist (ptA "A") (1 : ℝ) 1 = 0 :=
      labelCenterDist_eval _ _ _ 0 (le_refl 0) (by norm_num [ptA])
    show ¬ exclusionRadius ≤ labelCenterDist (ptA "A")
      (⟨1, 1, 0, 0⟩ : Candidate).x (⟨1, 1, 0, 0⟩ : Candidate).y
    dsimp only
    rw [h0, exclusionRadius_eq]
    norm_num
  rw [hprim]
  rw [show (List.range' 1 (opts0.rings - 1)) = [] from rfl,
    show (List.range' 1 opts0.rings) = [] from rfl]
  simp

lemma placeCrash : placeLabelForPoint csRun opts0 [] (ptA "A") = Except.error () := by
  unfold placeLabelForPoint
  have hsc : scoredCandidates csRun opts0 [] (ptA "A") = [] := by
    unfold scoredCandidates
    rw [genCrash_eval]
    rfl
  rw [hsc]
  rfl

/-! ### Grouping of the concrete anchor lists -/

lemma keyA (s : String) : keyOf (ptA s) = (6, 6) := by
  unfold keyOf jsRound ptA
  dsimp only
  simp only [Prod.mk.injEq]
  constructor <;> (rw [Int.floor_eq_iff] <;> norm_num)

lemma keyB : keyOf ptB = (-13, 6) := by
  unfold keyOf jsRound ptB
  dsimp only
  simp only [Prod.mk.injEq]
  constructor <;> (rw [Int.floor_eq_iff] <;> norm_num)

lemma keyC : keyOf ptC = (6, 6) := by
  unfold keyOf jsRound ptC
  dsimp only
  simp only [Prod.mk.injEq]
  constructor <;> (rw [Int.floor_eq_iff] <;> norm_num)

lemma keyP1 : keyOf ptP1 = (6, 6) := by
  unfold keyOf jsRound ptP1
  dsimp only
  simp only [Prod.mk.injEq]
  constructor <;> (rw [Int.floor_eq_iff] <;> norm_num)

lemma keyP2 : keyOf ptP2 = (6, 6) := by
  unfold keyOf jsRound ptP2
  dsimp only
  simp only [Prod.mk.injEq]
  constructor <;> (rw [Int.floor_eq_iff] <;> norm_num)

lemma insertKey_nil (k : ℤ × ℤ) : insertKey [] k = [k] := by
  unfold insertKey
  rw [if_neg (by simp)]
  rfl

lemma insertKey_new {l : List (ℤ × ℤ)} {k : ℤ × ℤ} (h : k ∉ l) :
    insertKey l k = l ++ [k] := by
  unfold insertKey
  rw [if_neg h]

lemma insertKey_old {l : List (ℤ × ℤ)} {k : ℤ × ℤ} (h : k ∈ l) :
    insertKey l k = l := by
  unfold insertKey
  rw [if_pos h]

lemma groupsAB : groupsOf [ptA "A", ptB] = [[ptA "A"], [ptB]] := by
  unfold groupsOf
  dsimp only
  have hfil : [ptA "A", ptB].filter (fun p => textTruthy p.text) = [ptA "A", ptB] := by
    rw [List.filter_eq_self]
    intro a ha
    rcases (by simpa using ha : a = ptA "A" ∨ a = ptB) with h | h <;> (subst h; decide)
  rw [hfil]
  have hkeys : keysOf [ptA "A", ptB] = [(6, 6), (-13, 6)] := by
    unfold keysOf
    rw [List.foldl_cons, List.foldl_cons, List.foldl_nil, keyA, keyB,
      insertKey_nil, insertKey_new (by decide)]
    rfl
  rw [hkeys]
  have hg1 : [ptA "A", ptB].filter
      (fun p => decide (keyOf p = ((6 : ℤ), (6 : ℤ)))) = [ptA "A"] := by
    simp [List.filter_cons, keyA, keyB]
  have hg2 : [ptA "A", ptB].filter
      (fun p => decide (keyOf p = ((-13 : ℤ), (6 : ℤ)))) = [ptB] := by
    simp [List.filter_cons, keyA, keyB]
  rw [List.map_cons, List.map_cons, List.map_nil, hg1, hg2]
  rw [sortGroups, sortGroups, sortGroups]
  rw [show insertGroup [ptB] [] = [[ptB]] from rfl]
  unfold insertGroup
  rw [if_pos (by norm_num [firstY, ptA, ptB])]

lemma groupsA2 : groupsOf [ptA "A", ptC] = [[ptA "A", ptC]] := by
  unfold groupsOf
  dsimp only
  have hfil : [ptA "A", ptC].filter (fun p => textTruthy p.text) = [ptA "A", ptC] := by
    rw [List.filter_eq_self]
    intro a ha
    rcases (by simpa using ha : a = ptA "A" ∨ a = ptC) with h | h <;> (subst h; decide)
  rw [hfil]
  have hkeys : keysOf [ptA "A", ptC] = [(6, 6)] := by
    unfold keysOf
    rw [List.foldl_cons, List.foldl_cons, List.foldl_nil, keyA, keyC,
      insertKey_nil, insertKey_old (by simp)]
  rw [hkeys]
  have hg1 : [ptA "A", ptC].filter
      (fun p => decide (keyOf p = ((6 : ℤ), (6 : ℤ)))) = [ptA "A", ptC] := by
    simp [List.filter_cons, keyA, keyC]
  rw [List.map_cons, List.map_nil, hg1]
  rfl

lemma groupsP12 : groupsOf [ptP1, ptP2] = [[ptP1, ptP2]] := by
  unfold groupsOf
  dsimp only
  have hfil : [ptP1, ptP2].filter (fun p => textTruthy p.text) = [ptP1, ptP2] := by
    rw [List.filter_eq_self]
    intro a ha
    rcases (by simpa using ha : a = ptP1 ∨ a = ptP2) with h | h <;> (subst h; decide)
  rw [hfil]
  have hkeys : keysOf [ptP1, ptP2] = [(6, 6)] := by
    unfold keysOf
    rw [List.foldl_cons, List.foldl_cons, List.foldl_nil, keyP1, keyP2,
      insertKey_nil, insertKey_old (by simp)]
  rw [hkeys]
  have hg1 : [ptP1, ptP2].filter
      (fun p => decide (keyOf p = ((6 : ℤ), (6 : ℤ)))) = [ptP1, ptP2] := by
    simp [List.filter_cons, keyP1, keyP2]
  rw [List.map_cons, List.map_nil, hg1]
  rfl

lemma groupsSingleA : groupsOf [ptA "A"] = [[ptA "A"]] := by
  unfold groupsOf
  dsimp only
  have hfil : [ptA "A"].filter (fun p => textTruthy p.text) = [ptA "A"] := by
    rw [List.filter_eq_self]
    intro a ha
    have h : a = ptA "A" := by simpa using ha
    subst h
    decide
  rw [hfil]
  have hkeys : keysOf [ptA "A"] = [(6, 6)] := by
    unfold keysOf
    rw [List.foldl_cons, List.foldl_nil, keyA, insertKey_nil]
  rw [hkeys]
  have hg1 : [ptA "A"].filter
      (fun p => decide (keyOf p = ((6 : ℤ), (6 : ℤ)))) = [ptA "A"] := by
    simp [List.filter_cons, keyA]
  rw [List.map_cons, List.map_nil, hg1]
  rfl

/-! ### Full concrete passes -/

lemma runGroups_nil (cs : ChartSize) (opts : Options) (st : PState) :
    runGroups cs opts st [] = Except.ok st := rfl

lemma runGroups_cons {cs : ChartSize} {opts : Options} {st : PState}
    {g : List Pt} {gs : List (List Pt)} :
    runGroups cs opts st (g :: gs) =
      match placeGroup cs opts st g with
      | Except.error e => Except.error e
      | Except.ok st2 => runGroups cs opts st2 gs := rfl

lemma runGroups_cons_ok {cs : ChartSize} {opts : Options} {st : PState}
    {g : List Pt} {gs : List (List Pt)} {st2 : PState}
    (h : placeGroup cs opts st g = Except.ok st2) :
    runGroups cs opts st (g :: gs) = runGroups cs opts st2 gs := by
  rw [runGroups_cons, h]

lemma runGroups_cons_error {cs : ChartSize} {opts : Options} {st : PState}
    {g : List Pt} {gs : List (List Pt)}
    (h : placeGroup cs opts st g = Except.error ()) :
    runGroups cs opts st (g :: gs) = Except.error () := by
  rw [runGroups_cons, h]

lemma placeGroup_cons_some {cs : ChartSize} {opts : Options} {st : PState}
    {p : Pt} {rest : List Pt} {L : LabelBox}
    (h : placeLabelForPoint cs opts st.tree (combinePoint (p :: rest)) =
      Except.ok (some L)) :
    placeGroup cs opts st (p :: rest) =
      Except.ok ⟨st.tree ++ [toRTreeBox L 2], st.placed ++ [L]⟩ := by
  unfold placeGroup
  dsimp only
  rw [h]

lemma placeGroup_cons_none {cs : ChartSize} {opts : Options} {st : PState}
    {p : Pt} {rest : List Pt}
    (h : placeLabelForPoint cs opts st.tree (combinePoint (p :: rest)) =
      Except.ok none) :
    placeGroup cs opts st (p :: rest) = Except.ok st := by
  unfold placeGroup
  dsimp only
  rw [h]

lemma placeGroup_cons_error {cs : ChartSize} {opts : Options} {st : PState}
    {p : Pt} {rest : List Pt}
    (h : placeLabelForPoint cs opts st.tree (combinePoint (p :: rest)) =
      Except.error ()) :
    placeGroup cs opts st (p :: rest) = Except.error () := by
  unfold placeGroup
  dsimp only
  rw [h]

lemma runAB : placeAll csRun runOpts [ptA "A", ptB] =
    Except.ok [lblA "A", lblB] := by
  unfold placeAll
  rw [groupsAB]
  have h1 : placeGroup csRun runOpts ⟨[], []⟩ [ptA "A"] =
      Except.ok ⟨[] ++ [toRTreeBox (lblA "A") 2], [] ++ [lblA "A"]⟩ :=
    placeGroup_cons_some (by rw [combinePoint_single]; exact placeA "A")
  have h2 : placeGroup csRun runOpts ⟨[] ++ [toRTreeBox (lblA "A") 2], [] ++ [lblA "A"]⟩
      [ptB] = Except.ok ⟨([] ++ [toRTreeBox (lblA "A") 2]) ++ [toRTreeBox lblB 2],
        ([] ++ [lblA "A"]) ++ [lblB]⟩ :=
    placeGroup_cons_some (by
      rw [combinePoint_single]
      show placeLabelForPoint csRun runOpts ([] ++ [toRTreeBox (lblA "A") 2]) ptB = _
      rw [List.nil_append]
      exact placeB "A")
  rw [runGroups_cons_ok h1, runGroups_cons_ok h2, runGroups_nil]
  dsimp only
  simp

lemma runA2 : placeAll csRun runOpts [ptA "A", ptC] =
    Except.ok [lblA "A, B"] := by
  unfold placeAll
  rw [groupsA2]
  have hcp : combinePoint [ptA "A", ptC] = ptA "A, B" := by
    rw [combinePoint_pair]
    unfold ptA ptC
    dsimp only
    simp only [Pt.mk.injEq]
    refine ⟨trivial, trivial, rfl, ?_, ?_, trivial⟩ <;> exact max_self 10
  have h1 : placeGroup csRun runOpts ⟨[], []⟩ [ptA "A", ptC] =
      Except.ok ⟨[] ++ [toRTreeBox (lblA "A, B") 2], [] ++ [lblA "A, B"]⟩ :=
    placeGroup_cons_some (by rw [hcp]; exact placeA "A, B")
  rw [runGroups_cons_ok h1, runGroups_nil]
  dsimp only
  simp

lemma runP12 : placeAll csRun runOpts [ptP1, ptP2] = Except.ok [] := by
  unfold placeAll
  rw [groupsP12]
  have h1 : placeGroup csRun runOpts ⟨[], []⟩ [ptP1, ptP2] = Except.ok ⟨[], []⟩ :=
    placeGroup_cons_none (by rw [combinePoint_P12]; exact placeM)
  rw [runGroups_cons_ok h1, runGroups_nil]

lemma runCrash : placeAll csRun opts0 [ptA "A"] = Except.error () := by
  unfold placeAll
  rw [groupsSingleA]
  have h1 : placeGroup csRun opts0 ⟨[], []⟩ [ptA "A"] = Except.error () :=
    placeGroup_cons_error (by rw [combinePoint_single]; exact placeCrash)
  rw [runGroups_cons_error h1]

/-! ### Remaining claim theorems and witnesses -/

/-- C2 (counterexample): a pass on the 11×11 chart with anchors (6,6) and
(-13,6) places the second label at (-6,1): its rectangle contains the point
(4,6), at distance 2 from the other group's anchor (6,6) — strictly inside
that anchor's 7 px exclusion disk — although both labels were placed, not
dropped.  The engine never checks other anchors' exclusion disks. -/
theorem claim2_counterexample :
    placeAll csRun runOpts [ptA "A", ptB] = Except.ok [lblA "A", lblB] ∧
    lblB ∈ [lblA "A", lblB] ∧
    keyOf lblB.forPoint ≠ keyOf (ptA "A") ∧
    rectMeetsDisk lblB (ptA "A").x (ptA "A").y exclusionRadius := by
  refine ⟨runAB, by simp, ?_, ?_⟩
  · rw [show lblB.forPoint = ptB from rfl, keyB, keyA]
    decide
  · refine ⟨4, 6, ?_, ?_, ?_, ?_, ?_⟩
    · norm_num [lblB]
    · norm_num [lblB]
    · norm_num [lblB]
    · norm_num [lblB]
    · rw [exclusionRadius_eq,
        show Real.sqrt ((4 - (ptA "A").x) ^ 2 + (6 - (ptA "A").y) ^ 2) = 2 from
          sqrt_eval _ 2 (by norm_num) (by norm_num [ptA])]
      norm_num

/-- C6 (counterexample): two anchors in the same rounded bucket whose merged
label cannot be placed (a 30 px-wide box on an 11×11 chart) produce ZERO
LabelBoxes, not exactly one — the merged group is dropped when every
candidate is disqualified. -/
theorem claim6_counterexample :
    keyOf ptP1 = keyOf ptP2 ∧
    textTruthy ptP1.text = true ∧ textTruthy ptP2.text = true ∧
    placeAll csRun runOpts [ptP1, ptP2] = Except.ok [] :=
  ⟨by rw [keyP1, keyP2], by decide, by decide, runP12⟩

/-- C6 (amended): a pass over two same-bucket anchors with truthy texts
produces AT MOST one LabelBox — exactly one when the merged candidate wins —
and any label produced carries the comma-joined text and the per-axis
maximum box of the two anchors. -/
theorem claim6_merged_group (cs : ChartSize) (opts : Options) (p1 p2 : Pt)
    (hk : keyOf p1 = keyOf p2)
    (h1 : textTruthy p1.text = true) (h2 : textTruthy p2.text = true)
    {out : List LabelBox} (h : placeAll cs opts [p1, p2] = Except.ok out) :
    out.length ≤ 1 ∧ ∀ L ∈ out,
      L.text = p1.text ++ ", " ++ p2.text ∧
      L.width = max p1.width p2.width ∧ L.height = max p1.height p2.height := by
  have hg : groupsOf [p1, p2] = [[p1, p2]] := by
    unfold groupsOf
    dsimp only
    have hfil : [p1, p2].filter (fun p => textTruthy p.text) = [p1, p2] := by
      rw [List.filter_eq_self]
      intro a ha
      rcases (by simpa using ha : a = p1 ∨ a = p2) with hh | hh
      · rw [hh]; exact h1
      · rw [hh]; exact h2
    rw [hfil]
    have hkeys : keysOf [p1, p2] = [keyOf p1] := by
      unfold keysOf
      rw [List.foldl_cons, List.foldl_cons, List.foldl_nil, insertKey_nil,
        insertKey_old (by rw [← hk]; simp)]
    rw [hkeys]
    have hfil2 : [p1, p2].filter (fun p => decide (keyOf p = keyOf p1)) = [p1, p2] := by
      rw [List.filter_eq_self]
      intro a ha
      rcases (by simpa using ha : a = p1 ∨ a = p2) with hh | hh
      · rw [hh]; simp
      · rw [hh]; simp [hk]
    rw [List.map_cons, List.map_nil, hfil2]
    rfl
  have hcp := combinePoint_pair p1 p2
  unfold placeAll at h
  rw [hg] at h
  cases hp : placeGroup cs opts ⟨[], []⟩ [p1, p2] with
  | error e =>
    cases e
    rw [runGroups_cons_error hp] at h
    exact absurd h (by simp)
  | ok st1 =>
    rw [runGroups_cons_ok hp, runGroups_nil] at h
    dsimp only at h
    have hout : st1.placed = out := by injection h
    rcases placeGroup_ok_cases hp with ⟨heq, -⟩ | ⟨L, hsome, heq⟩
    · subst heq
      rw [← hout]
      exact ⟨by simp, by simp⟩
    · subst heq
      rw [← hout]
      obtain ⟨-, hw, hh2, ht⟩ := placed_label_shape hsome
      rw [hcp] at hw hh2 ht
      refine ⟨by simp, ?_⟩
      intro L2 hL2
      have hL2e : L2 = L := by simpa using hL2
      subst hL2e
      exact ⟨ht, hw, hh2⟩

/-- C7 (counterexample): with `rings := 0` and the single anchor (6,6) on
the 11×11 chart every primary candidate is clamped to (1,1) and filtered by
the distance floor, so the candidate list is empty and `scored[0].score`
raises a TypeError — the pass does not return a result. -/
theorem claim7_counterexample : placeAll csRun opts0 [ptA "A"] = Except.error () :=
  runCrash

/-- C1 witness: the concrete two-anchor pass, whose two placed labels have
disjoint padded rectangles. -/
theorem claim1_witness :
    placeAll csRun runOpts [ptA "A", ptB] = Except.ok [lblA "A", lblB] ∧
    List.Pairwise (fun a b => ¬ paddedIntersects a b) [lblA "A", lblB] :=
  ⟨runAB, claim1_no_overlap_pass (by norm_num [runOpts]) runAB⟩

/-- C2 witness (for the amended claim): in the concrete pass the first label
avoids the open exclusion disk of its own anchor. -/
theorem claim2_witness :
    placeAll csRun runOpts [ptA "A", ptB] = Except.ok [lblA "A", lblB] ∧
    ¬ rectMeetsDisk (lblA "A") (lblA "A").forPoint.x (lblA "A").forPoint.y
      exclusionRadius :=
  ⟨runAB, claim2_own_anchor_disk (by norm_num [runOpts]) runAB (lblA "A") (by simp)⟩

/-- C3 witness: the commit branch (anchor (6,6) gets its best candidate
committed), the skip branch (the oversized merged group yields no label),
and the output-length bound, all at concrete inputs. -/
theorem claim3_witness :
    placeLabelForPoint csRun runOpts [] (ptA "A") =
      Except.ok (some (mkLabel (ptA "A")
        ⟨13, 1, 0, totalScore csRun runOpts [] (ptA "A") 13 1⟩)) ∧
    placeLabelForPoint csRun runOpts [] (combinePoint [ptP1, ptP2]) = Except.ok none ∧
    [lblA "A", lblB].length ≤ (groupsOf [ptA "A", ptB]).length := by
  refine ⟨?_, ?_, ?_⟩
  · exact ((claim3_select_commit_or_skip csRun runOpts).1 [] (ptA "A") _
      (by rw [sortDesc_head?]; exact bestA "A")).2.2 (scoreAF_gt "A")
  · rw [combinePoint_P12]
    have hex : ∃ b, bestOf (scoredCandidates csRun runOpts [] ptM) = some b := by
      cases hbb : bestOf (scoredCandidates csRun runOpts [] ptM) with
      | none =>
        refine absurd ((bestOf_none_iff _).mp hbb) ?_
        unfold scoredCandidates
        rw [genM_eval]
        simp
      | some b => exact ⟨b, rfl⟩
    obtain ⟨b, hbb⟩ := hex
    exact ((claim3_select_commit_or_skip csRun runOpts).1 [] ptM b
      (by rw [sortDesc_head?]; exact hbb)).2.1 (scoresM_ub b (bestOf_mem hbb))
  · exact (claim3_select_commit_or_skip csRun runOpts).2.2 _ _ runAB

/-- C4 witness: re-running the concrete pass gives the same result, and on a
concrete tied candidate list the head of the stable sort is the FIRST
maximal-score candidate. -/
theorem claim4_witness :
    placeAll csRun runOpts [ptA "A", ptB] = placeAll csRun runOpts [ptA "A", ptB] ∧
    (sortDesc [⟨0, 0, 0, 5⟩, ⟨1, 0, 0, 7⟩, ⟨2, 0, 0, 7⟩]).head? =
      some ⟨1, 0, 0, 7⟩ ∧
    (∀ x ∈ [(⟨0, 0, 0, 5⟩ : Candidate), ⟨1, 0, 0, 7⟩, ⟨2, 0, 0, 7⟩],
      x.score ≤ (Candidate.mk 1 0 0 7).score) ∧
    ∃ l₁ l₂, [(⟨0, 0, 0, 5⟩ : Candidate), ⟨1, 0, 0, 7⟩, ⟨2, 0, 0, 7⟩] =
      l₁ ++ ⟨1, 0, 0, 7⟩ :: l₂ ∧ ∀ x ∈ l₁, x.score < (Candidate.mk 1 0 0 7).score := by
  have e1 : bestOf [(⟨2, 0, 0, 7⟩ : Candidate)] = some ⟨2, 0, 0, 7⟩ := rfl
  have e2 : bestOf [(⟨1, 0, 0, 7⟩ : Candidate), ⟨2, 0, 0, 7⟩] = some ⟨1, 0, 0, 7⟩ := by
    rw [bestOf, e1, combineBest_some]
    dsimp only
    rw [if_pos (by norm_num : (7 : ℝ) ≤ 7)]
  have e3 : bestOf [(⟨0, 0, 0, 5⟩ : Candidate), ⟨1, 0, 0, 7⟩, ⟨2, 0, 0, 7⟩] =
      some ⟨1, 0, 0, 7⟩ := by
    rw [bestOf, e2, combineBest_some]
    dsimp only
    rw [if_neg (by norm_num : ¬ (7 : ℝ) ≤ 5)]
  have hh : (sortDesc [(⟨0, 0, 0, 5⟩ : Candidate), ⟨1, 0, 0, 7⟩, ⟨2, 0, 0, 7⟩]).head? =
      some ⟨1, 0, 0, 7⟩ := by
    rw [sortDesc_head?, e3]
  have happ := claim4_determinism_tiebreak.2 _ _ hh
  exact ⟨claim4_determinism_tiebreak.1 csRun runOpts [ptA "A", ptB], hh, happ.1, happ.2⟩

/-- C6 witness: two same-bucket anchors (6,6) and (6.4,6) with texts "A" and
"B" produce one merged label "A, B" with the per-axis maximal box. -/
theorem claim6_witness :
    placeAll csRun runOpts [ptA "A", ptC] = Except.ok [lblA "A, B"] ∧
    [lblA "A, B"].length ≤ 1 ∧ ∀ L ∈ [lblA "A, B"],
      L.text = (ptA "A").text ++ ", " ++ ptC.text ∧
      L.width = max (ptA "A").width ptC.width ∧
      L.height = max (ptA "A").height ptC.height :=
  ⟨runA2, claim6_merged_group csRun runOpts (ptA "A") ptC (by rw [keyA, keyC])
    (by decide) (by decide) runA2⟩

/-- C7 witness (for the amended claim): with `rings = anglesPerRing = 1` the
concrete two-anchor pass returns a result. -/
theorem claim7_witness :
    (1 ≤ runOpts.rings ∧ 1 ≤ runOpts.anglesPerRing) ∧
    ∃ out, placeAll csRun runOpts [ptA "A", ptB] = Except.ok out :=
  ⟨⟨by decide, by decide⟩,
    claim7_no_raise csRun runOpts [ptA "A", ptB] (by decide) (by decide)⟩

/-- C8 witness: the concrete fallback candidate (13,1) of anchor (6,6) is in
the generated list and its center is 12 ≥ 7 pixels from the anchor. -/
theorem claim8_witness :
    (⟨13, 1, 0, 0⟩ : Candidate) ∈ generateCandidates csRun runOpts (ptA "A") ∧
    exclusionRadius ≤ labelCenterDist (ptA "A")
      (⟨13, 1, 0, 0⟩ : Candidate).x (⟨13, 1, 0, 0⟩ : Candidate).y := by
  have hmem : (⟨13, 1, 0, 0⟩ : Candidate) ∈ generateCandidates csRun runOpts (ptA "A") := by
    rw [genA_eval]
    simp
  exact ⟨hmem, claim8_distance_floor csRun runOpts (ptA "A") _ hmem⟩

/-- C10 witness: in the concrete pass the first label neither overlaps its
own anchor's exclusion square nor has a corner within 7 px of it. -/
theorem claim10_witness :
    placeAll csRun runOpts [ptA "A", ptB] = Except.ok [lblA "A", lblB] ∧
    (¬ exclusionOverlap (lblA "A").forPoint (lblA "A").x (lblA "A").y ∧
      ¬ violatesBoundary (lblA "A").forPoint (lblA "A").x (lblA "A").y) :=
  ⟨runAB, claim10_own_anchor_guard (by norm_num [runOpts]) runAB (lblA "A") (by simp)⟩

/-- A pass whose anchors all have empty or blank texts (in particular, a
pass with no anchors at all) returns the empty result — the provable half of
the degenerate-input claim (the zero-size-area half depends on IEEE-754
division by zero and is argued outside the embedding). -/
lemma placeAll_no_labeled_anchors {cs : ChartSize} {opts : Options} {points : List Pt}
    (h : points.filter (fun p => textTruthy p.text) = []) :
    placeAll cs opts points = Except.ok [] := by
  unfold placeAll groupsOf
  rw [h]
  rfl

end LabelPlacer
